import Mathlib

/-!
# PPPoS client example: the connectivity orchestrator

A shallow embedding of `pppos_client_main.c` (esp_modem example).

* The event group is a bit mask (`EventBits`), with the FreeRTOS operations
  `xEventGroupSetBits` (or), `xEventGroupClearBits` (and-not) and the two tests
  the source performs on it.
* The four notification handlers are functions on the program state.
* `app_main` is a transition system over program points named after the source
  lines.  One `Input.main` step runs the next statement of `app_main`; the other
  inputs run one notification handler, so a list of inputs is an interleaving of
  the orchestrator thread with the handler contexts.  Every step returns the
  collaborator calls it made.
-/

namespace PpposClient

/-! ## Event group -/

/-- Value of an event group: a mask of bits. -/
abbrev EventBits := Nat

/-- Mask with only bit `n` set: the `BITn` constants. -/
def BIT (n : Nat) : EventBits := 1 <<< n

/-- Line 38. -/
def CONNECT_BIT : EventBits := BIT 0
/-- Line 39. -/
def GOT_DATA_BIT : EventBits := BIT 2
/-- Line 40. -/
def USB_DISCONNECTED_BIT : EventBits := BIT 3

/-- Bits after `xEventGroupSetBits`: `bits | mask`. -/
def setBits (bits mask : EventBits) : EventBits := bits ||| mask

/-- Bits after `xEventGroupClearBits`: `bits & ~mask`, written without a width as
`bits ^ (bits & mask)`. -/
def clearBits (bits mask : EventBits) : EventBits := bits ^^^ (bits &&& mask)

/-- Exit condition of `xEventGroupWaitBits` with `xWaitForAllBits = pdFALSE`:
some awaited bit is set. -/
def anyBit (bits mask : EventBits) : Bool := (bits &&& mask) != 0

/-- Test of `CHECK_USB_DISCONNECTION` (line 55): `(bits & mask) == mask`. -/
def allBits (bits mask : EventBits) : Bool := (bits &&& mask) == mask

/-- Whether bit `k` is set in `bits`. -/
def isSet (bits : EventBits) (k : Nat) : Bool := bits.testBit k

/-! ## Configuration (sdkconfig) -/

/-- Which `CONFIG_EXAMPLE_SERIAL_CONFIG_*` is defined. -/
inductive Serial
  | UART
  | USB
  deriving DecidableEq, Repr

/-- Which `CONFIG_EXAMPLE_MODEM_DEVICE_*` is 1 (lines 221-239); `generic` is the
`#else` branch. -/
inductive Device
  | BG96
  | SIM800
  | SIM7000
  | SIM7070
  | SIM7600
  | generic
  deriving DecidableEq, Repr

/-- The `EXAMPLE_FLOW_CONTROL` selection (lines 27-33). -/
inductive FlowControl
  | NONE
  | SW
  | HW
  deriving DecidableEq, Repr

/-- The build configuration the source is compiled with. -/
structure Config where
  serial : Serial
  device : Device
  flow_control : FlowControl
  need_sim_pin : Bool
  sim_pin : String
  send_msg : Bool
  peer_phone_number : String
  mqtt_test_topic : String
  mqtt_test_data : String
  deriving DecidableEq, Repr

/-! ## Notification kinds

The enums below are declared in headers outside this file; each lists the
constants the handlers name, and `other` stands for every remaining id. -/

/-- Event ids of `IP_EVENT` compared by `on_ip_event`. -/
inductive ip_event_t
  | IP_EVENT_PPP_GOT_IP
  | IP_EVENT_PPP_LOST_IP
  | IP_EVENT_GOT_IP6
  | other (event_id : Int)
  deriving DecidableEq, Repr

/-- Event ids of `NETIF_PPP_STATUS` compared by `on_ppp_changed`. -/
inductive ppp_status_event_t
  | NETIF_PPP_ERRORUSER
  | other (event_id : Int)
  deriving DecidableEq, Repr

/-- Event ids switched on by `mqtt_event_handler`. -/
inductive esp_mqtt_event_id_t
  | MQTT_EVENT_CONNECTED
  | MQTT_EVENT_DISCONNECTED
  | MQTT_EVENT_SUBSCRIBED
  | MQTT_EVENT_UNSUBSCRIBED
  | MQTT_EVENT_PUBLISHED
  | MQTT_EVENT_DATA
  | MQTT_EVENT_ERROR
  | other (event_id : Int)
  deriving DecidableEq, Repr

/-- Reasons passed to the terminal error callback. -/
inductive esp_modem_terminal_error_t
  | ESP_MODEM_TERMINAL_DEVICE_GONE
  | other (code : Int)
  deriving DecidableEq, Repr

/-- Argument of `esp_modem_set_mode`. -/
inductive Mode
  | ESP_MODEM_MODE_COMMAND
  | ESP_MODEM_MODE_DATA
  deriving DecidableEq, Repr

/-! ## Collaborator calls -/

/-- One call into a collaborator.  Handles are numbers, `0` is `NULL`; a creation
call carries the handle it returned. -/
inductive Call
  | esp_netif_init
  | esp_event_loop_create_default
  | esp_event_handler_register_ip
  | esp_event_handler_register_ppp
  | esp_netif_new
  | xEventGroupCreate
  | gpio_config
  | gpio_set_level (pin level : Nat)
  | vTaskDelay (ms : Nat)
  | esp_modem_new_dev (device : Device) (ret : Nat)
  | esp_modem_new (ret : Nat)
  | esp_modem_new_dev_usb (ret : Nat)
  | esp_modem_set_flow_control (dce dce_flow dte_flow : Nat)
  | esp_modem_set_error_cb (dce : Nat)
  | xEventGroupClearBits (mask : EventBits)
  | esp_modem_read_pin (dce : Nat)
  | esp_modem_set_pin (dce : Nat) (pin : String)
  | esp_modem_get_signal_quality (dce : Nat)
  | esp_modem_sms_txt_mode (dce : Nat)
  | esp_modem_sms_character_set (dce : Nat)
  | esp_modem_send_sms (dce : Nat) (number text : String)
  | esp_modem_set_mode (dce : Nat) (mode : Mode)
  | xEventGroupWaitBits (mask : EventBits)
  | xEventGroupGetBits
  | esp_mqtt_client_init (ret : Nat)
  | esp_mqtt_client_register_event (client : Nat)
  | esp_mqtt_client_start (client : Nat)
  | esp_mqtt_client_subscribe (client : Nat) (topic : String) (qos : Nat)
  | esp_mqtt_client_publish (client : Nat) (topic data : String) (len qos retain : Nat)
  | esp_mqtt_client_destroy (client : Nat)
  | esp_modem_get_imsi (dce : Nat)
  | esp_modem_destroy (dce : Nat)
  | esp_netif_destroy
  deriving DecidableEq, Repr

/-! ## Program state -/

/-- Program points of `app_main`, named after the source line of the statement
about to run.  `Lnnn_blocked` is the inside of the `xEventGroupWaitBits` call of
line nnn, `Lnnn_destroy` the body of the `CHECK_USB_DISCONNECTION` expanded at
line nnn.  `done` is the end of the function, `returned` an early `return`,
`aborted` a failed assertion, `ESP_ERROR_CHECK` or `abort()`. -/
inductive Pc
  | L188 | L189 | L190 | L191 | L196 | L199 | L202 | L203
  | L223 | L242
  | L256 | L258 | L259
  | L265
  | L271 | L272 | L273
  | L281
  | L289 | L289_charset | L294
  | L301
  | L308 | L308_blocked | L309 | L309_destroy
  | L321 | L322 | L323
  | L325 | L325_blocked | L326 | L326_destroy
  | L328 | L329 | L335
  | L345 | L345_blocked | L346 | L346_destroy
  | L350 | L351
  | done | returned | aborted
  deriving DecidableEq, Repr

/-- Variables of the program: the program point, the static `event_group`
(`none` is the `NULL` it is initialised with), the local `dce` and `mqtt_client`
handles (`0` is `NULL`), and how many sessions and probe clients were made so
far: handles are numbered in order of creation. -/
structure State where
  pc : Pc
  event_group : Option EventBits
  dce : Nat
  mqtt_client : Nat
  sessions_made : Nat
  clients_made : Nat
  deriving DecidableEq, Repr

/-- State at the entry of `app_main`. -/
def State.init : State :=
  { pc := .L188, event_group := none, dce := 0, mqtt_client := 0, sessions_made := 0,
    clients_made := 0 }

/-- Whether every bit of `mask` is set in the event group, as the test of line 55
reads it (false for the `NULL` group). -/
def State.has (s : State) (mask : EventBits) : Bool :=
  match s.event_group with
  | some bits => allBits bits mask
  | none => false

/-- Call of `xEventGroupSetBits(event_group, mask)`; on the `NULL` group the
assertion at the head of the FreeRTOS function fails. -/
def xEventGroupSetBits (s : State) (mask : EventBits) : State :=
  match s.event_group with
  | some bits => { s with event_group := some (setBits bits mask) }
  | none => { s with pc := .aborted }

/-! ## Notification handlers -/

/-- Lines 46-53. -/
def usb_terminal_error_handler (err : esp_modem_terminal_error_t) (s : State) : State :=
  if err = .ESP_MODEM_TERMINAL_DEVICE_GONE then
    xEventGroupSetBits s USB_DISCONNECTED_BIT
  else s

/-- Lines 98-137; `client` is `event->client`. -/
def mqtt_event_handler (cfg : Config) (client : Nat) (event_id : esp_mqtt_event_id_t)
    (s : State) : State × List Call :=
  match event_id with
  | .MQTT_EVENT_CONNECTED => (s, [.esp_mqtt_client_subscribe client cfg.mqtt_test_topic 0])
  | .MQTT_EVENT_DISCONNECTED => (s, [])
  | .MQTT_EVENT_SUBSCRIBED =>
      (s, [.esp_mqtt_client_publish client cfg.mqtt_test_topic cfg.mqtt_test_data 0 0 0])
  | .MQTT_EVENT_UNSUBSCRIBED => (s, [])
  | .MQTT_EVENT_PUBLISHED => (s, [])
  | .MQTT_EVENT_DATA => (xEventGroupSetBits s GOT_DATA_BIT, [])
  | .MQTT_EVENT_ERROR => (s, [])
  | .other _ => (s, [])

/-- Lines 139-148: logging only. -/
def on_ppp_changed (event_id : ppp_status_event_t) (s : State) : State :=
  if event_id = .NETIF_PPP_ERRORUSER then s else s

/-- Lines 151-182. -/
def on_ip_event (event_id : ip_event_t) (s : State) : State :=
  if event_id = .IP_EVENT_PPP_GOT_IP then
    xEventGroupSetBits s CONNECT_BIT
  else if event_id = .IP_EVENT_PPP_LOST_IP then s
  else if event_id = .IP_EVENT_GOT_IP6 then s
  else s

/-! ## Power sequencer -/

/-- Line 64. -/
def GPIO_PWRKEY : Nat := 15
/-- Line 65. -/
def GPIO_MODEM_SUPPLY_EN : Nat := 21

/-- Lines 81-96. -/
def wakeup_modem : List Call :=
  [ .gpio_set_level GPIO_MODEM_SUPPLY_EN 1, .vTaskDelay 1000,
    .gpio_set_level GPIO_MODEM_SUPPLY_EN 0, .vTaskDelay 1000,
    .gpio_set_level GPIO_PWRKEY 1, .vTaskDelay 200,
    .gpio_set_level GPIO_PWRKEY 0, .vTaskDelay 2000 ]

/-! ## The orchestrator: `app_main` -/

/-- One scheduling step.  `main ok pin_ok` runs the next statement of `app_main`:
`ok` tells whether the collaborator call made there succeeds (`ESP_OK`, or a
non-`NULL` handle), `pin_ok` is what `esp_modem_read_pin` stores in `pin_ok`.  The
other inputs deliver one notification to its handler. -/
inductive Input
  | main (ok pin_ok : Bool)
  | ip_event (event_id : ip_event_t)
  | ppp_event (event_id : ppp_status_event_t)
  | mqtt_event (client : Nat) (event_id : esp_mqtt_event_id_t)
  | terminal_error (err : esp_modem_terminal_error_t)
  deriving DecidableEq, Repr

/-- Mask cleared at line 265. -/
def ALL_BITS : EventBits := CONNECT_BIT ||| GOT_DATA_BIT ||| USB_DISCONNECTED_BIT

/-- Program point after the session exists: line 241 (UART) leads to the flow
control call or to line 265. -/
def after_new_uart (cfg : Config) : Pc :=
  if cfg.flow_control = .HW then .L242 else .L265

/-- Session creation of lines 221-239 with the handle it returns. -/
def new_dev_call (cfg : Config) (ret : Nat) : Call :=
  match cfg.device with
  | .generic => .esp_modem_new ret
  | d => .esp_modem_new_dev d ret

/-- Entry of `xEventGroupWaitBits(event_group, mask, pdFALSE, pdFALSE, portMAX_DELAY)`. -/
def wait_enter (s : State) (mask : EventBits) (blocked : Pc) : State × List Call :=
  match s.event_group with
  | some _ => ({ s with pc := blocked }, [.xEventGroupWaitBits mask])
  | none => ({ s with pc := .aborted }, [.xEventGroupWaitBits mask])

/-- Inside the wait: the call returns once an awaited bit is set, and never
times out. -/
def wait_return (s : State) (mask : EventBits) (next : Pc) : State × List Call :=
  match s.event_group with
  | some bits => if anyBit bits mask then ({ s with pc := next }, []) else (s, [])
  | none => ({ s with pc := .aborted }, [])

/-- The macro `CHECK_USB_DISCONNECTION` (lines 54-61) up to its test: empty for
UART; for USB it reads the bits and enters its body when the disconnect bit is
set. -/
def check_usb_disconnection (cfg : Config) (s : State) (body next : Pc) : State × List Call :=
  match cfg.serial with
  | .UART => ({ s with pc := next }, [])
  | .USB =>
    match s.event_group with
    | some bits =>
        if allBits bits USB_DISCONNECTED_BIT then ({ s with pc := body }, [.xEventGroupGetBits])
        else ({ s with pc := next }, [.xEventGroupGetBits])
    | none => ({ s with pc := .aborted }, [.xEventGroupGetBits])

/-- Body of the macro: `esp_modem_destroy(dce); continue;`. -/
def check_body (s : State) : State × List Call :=
  ({ s with pc := .L256 }, [.esp_modem_destroy s.dce])

/-- A checked call: go on when it succeeds, otherwise leave for `fail`. -/
def checked (s : State) (c : Call) (ok : Bool) (next fail : Pc) : State × List Call :=
  if ok then ({ s with pc := next }, [c]) else ({ s with pc := fail }, [c])

/-- One statement of `app_main` (lines 185-353). -/
def main_step (cfg : Config) (s : State) (ok pin_ok : Bool) : State × List Call :=
  match s.pc with
  | .L188 => checked s .esp_netif_init ok .L189 .aborted
  | .L189 => checked s .esp_event_loop_create_default ok .L190 .aborted
  | .L190 => checked s .esp_event_handler_register_ip ok .L191 .aborted
  | .L191 => checked s .esp_event_handler_register_ppp ok .L196 .aborted
  | .L196 => checked s .esp_netif_new ok .L199 .aborted
  | .L199 =>
      ({ s with pc := .L202, event_group := if ok then some 0 else none }, [.xEventGroupCreate])
  | .L202 => checked s .gpio_config ok .L203 .aborted
  | .L203 =>
      ({ s with pc := match cfg.serial with | .UART => .L223 | .USB => .L256 }, wakeup_modem)
  | .L223 =>
      if ok then
        ({ s with pc := after_new_uart cfg, dce := s.sessions_made + 1,
                  sessions_made := s.sessions_made + 1 },
         [new_dev_call cfg (s.sessions_made + 1)])
      else ({ s with pc := .aborted, dce := 0 }, [new_dev_call cfg 0])
  | .L242 => checked s (.esp_modem_set_flow_control s.dce 2 2) ok .L265 .returned
  | .L256 =>
      if ok then
        ({ s with pc := .L258, dce := s.sessions_made + 1, sessions_made := s.sessions_made + 1 },
         [.esp_modem_new_dev_usb (s.sessions_made + 1)])
      else ({ s with pc := .aborted, dce := 0 }, [.esp_modem_new_dev_usb 0])
  | .L258 => ({ s with pc := .L259 }, [.esp_modem_set_error_cb s.dce])
  | .L259 => ({ s with pc := .L265 }, [.vTaskDelay 1000])
  | .L265 =>
      match s.event_group with
      | some bits =>
          ({ s with pc := if cfg.need_sim_pin then .L271 else .L281,
                    event_group := some (clearBits bits ALL_BITS) },
           [.xEventGroupClearBits ALL_BITS])
      | none => ({ s with pc := .aborted }, [.xEventGroupClearBits ALL_BITS])
  | .L271 =>
      ({ s with pc := if ok && pin_ok == false then .L272 else .L281 }, [.esp_modem_read_pin s.dce])
  | .L272 => checked s (.esp_modem_set_pin s.dce cfg.sim_pin) ok .L273 .aborted
  | .L273 => ({ s with pc := .L281 }, [.vTaskDelay 1000])
  | .L281 =>
      checked s (.esp_modem_get_signal_quality s.dce) ok (if cfg.send_msg then .L289 else .L301)
        .returned
  | .L289 => checked s (.esp_modem_sms_txt_mode s.dce) ok .L289_charset .returned
  | .L289_charset => checked s (.esp_modem_sms_character_set s.dce) ok .L294 .returned
  | .L294 =>
      checked s (.esp_modem_send_sms s.dce cfg.peer_phone_number "Text message from esp-modem") ok
        .L301 .returned
  | .L301 => checked s (.esp_modem_set_mode s.dce .ESP_MODEM_MODE_DATA) ok .L308 .returned
  | .L308 => wait_enter s (CONNECT_BIT ||| USB_DISCONNECTED_BIT) .L308_blocked
  | .L308_blocked => wait_return s (CONNECT_BIT ||| USB_DISCONNECTED_BIT) .L309
  | .L309 => check_usb_disconnection cfg s .L309_destroy .L321
  | .L309_destroy => check_body s
  | .L321 =>
      if ok then
        ({ s with pc := .L322, mqtt_client := s.clients_made + 1,
                  clients_made := s.clients_made + 1 },
         [.esp_mqtt_client_init (s.clients_made + 1)])
      else ({ s with pc := .L322, mqtt_client := 0 }, [.esp_mqtt_client_init 0])
  | .L322 => ({ s with pc := .L323 }, [.esp_mqtt_client_register_event s.mqtt_client])
  | .L323 => ({ s with pc := .L325 }, [.esp_mqtt_client_start s.mqtt_client])
  | .L325 => wait_enter s (GOT_DATA_BIT ||| USB_DISCONNECTED_BIT) .L325_blocked
  | .L325_blocked => wait_return s (GOT_DATA_BIT ||| USB_DISCONNECTED_BIT) .L326
  | .L326 => check_usb_disconnection cfg s .L326_destroy .L328
  | .L326_destroy => check_body s
  | .L328 => ({ s with pc := .L329 }, [.esp_mqtt_client_destroy s.mqtt_client])
  | .L329 => checked s (.esp_modem_set_mode s.dce .ESP_MODEM_MODE_COMMAND) ok .L335 .returned
  | .L335 =>
      checked s (.esp_modem_get_imsi s.dce) ok (match cfg.serial with | .UART => .L350 | .USB => .L345)
        .returned
  | .L345 => wait_enter s USB_DISCONNECTED_BIT .L345_blocked
  | .L345_blocked => wait_return s USB_DISCONNECTED_BIT .L346
  | .L346 => check_usb_disconnection cfg s .L346_destroy .L256
  | .L346_destroy => check_body s
  | .L350 => ({ s with pc := .L351 }, [.esp_modem_destroy s.dce])
  | .L351 => ({ s with pc := .done }, [.esp_netif_destroy])
  | .done => (s, [])
  | .returned => (s, [])
  | .aborted => (s, [])

/-- One step of the whole system.  Nothing runs after an abort; the handlers keep
running after `app_main` has returned.  The terminal error handler exists in the
USB build only. -/
def step (cfg : Config) (s : State) (i : Input) : State × List Call :=
  if s.pc = .aborted then (s, [])
  else
    match i with
    | .main ok pin_ok => main_step cfg s ok pin_ok
    | .ip_event event_id => (on_ip_event event_id s, [])
    | .ppp_event event_id => (on_ppp_changed event_id s, [])
    | .mqtt_event client event_id => mqtt_event_handler cfg client event_id s
    | .terminal_error err =>
        match cfg.serial with
        | .USB => (usb_terminal_error_handler err s, [])
        | .UART => (s, [])

/-- State after a list of steps. -/
def run (cfg : Config) (s : State) : List Input → State
  | [] => s
  | i :: is => run cfg (step cfg s i).1 is

/-- Calls made during a list of steps, in order. -/
def trace (cfg : Config) (s : State) : List Input → List Call
  | [] => []
  | i :: is => (step cfg s i).2 ++ trace cfg (step cfg s i).1 is

/-! ## Observations on executions -/

/-- Whether the step belongs to the orchestrator thread. -/
def Input.is_main : Input → Bool
  | .main _ _ => true
  | _ => false

/-- Number of orchestrator steps in an interleaving. -/
def mains (inputs : List Input) : Nat := inputs.countP Input.is_main

/-- Session an operation is issued on: the `dce` argument of an `esp_modem_*`
call (a creation call has none, it returns the handle). -/
def Call.session : Call → Option Nat
  | .esp_modem_set_flow_control dce _ _ => some dce
  | .esp_modem_set_error_cb dce => some dce
  | .esp_modem_read_pin dce => some dce
  | .esp_modem_set_pin dce _ => some dce
  | .esp_modem_get_signal_quality dce => some dce
  | .esp_modem_sms_txt_mode dce => some dce
  | .esp_modem_sms_character_set dce => some dce
  | .esp_modem_send_sms dce _ _ => some dce
  | .esp_modem_set_mode dce _ => some dce
  | .esp_modem_get_imsi dce => some dce
  | .esp_modem_destroy dce => some dce
  | _ => none

/-- Handle returned by a session creation call. -/
def Call.created : Call → Option Nat
  | .esp_modem_new_dev _ ret => some ret
  | .esp_modem_new ret => some ret
  | .esp_modem_new_dev_usb ret => some ret
  | _ => none

/-- Calls of the Link Session interface: creation, operations, destruction. -/
def Call.is_session (c : Call) : Bool := c.session.isSome || c.created.isSome

/-- Creation or destruction of the network interface. -/
def Call.is_netif : Call → Bool
  | .esp_netif_new => true
  | .esp_netif_destroy => true
  | _ => false

/-- Calls made from the broker event handler, not by `app_main`. -/
def Call.by_handler : Call → Bool
  | .esp_mqtt_client_subscribe _ _ _ => true
  | .esp_mqtt_client_publish _ _ _ _ _ _ => true
  | _ => false

/-- Calls that start the traffic probe (lines 321-323). -/
def Call.starts_probe : Call → Bool
  | .esp_mqtt_client_init _ => true
  | .esp_mqtt_client_register_event _ => true
  | .esp_mqtt_client_start _ => true
  | _ => false

/-- Calls that end the traffic phase on the success path (lines 328-329): the
probe is stopped and command mode requested. -/
def Call.ends_traffic : Call → Bool
  | .esp_mqtt_client_destroy _ => true
  | .esp_modem_set_mode _ .ESP_MODEM_MODE_COMMAND => true
  | _ => false

/-- The Link Session calls of a trace. -/
def session_calls (t : List Call) : List Call := t.filter Call.is_session

/-- The calls `app_main` itself made. -/
def orchestrator_calls (t : List Call) : List Call := t.filter (fun c => !c.by_handler)

/-- Session discipline, one call at a time: `live` is the handle of the live
session, if any.  A creation needs no live session; a destroy and every other
session operation must name the live session.  `none` reports a violation. -/
def session_effect (live : Option Nat) (c : Call) : Option (Option Nat) :=
  match c.created with
  | some ret => if live = none then some (if ret = 0 then none else some ret) else none
  | none =>
    match c with
    | .esp_modem_destroy d => if live = some d then some none else none
    | _ =>
      match c.session with
      | some d => if live = some d then some live else none
      | none => some live

/-- Session discipline over a trace: the live session at its end, or `none` when
some call violates the discipline. -/
def lifecycle : Option Nat → List Call → Option (Option Nat)
  | live, [] => some live
  | live, c :: cs =>
    match session_effect live c with
    | some l => lifecycle l cs
    | none => none

/-- The reading of "cleared before each wait phase": every wait finds all its
awaited bits among those cleared since the previous wait returned.  `cleared` is
the mask cleared since then. -/
def cleared_before_each_wait : EventBits → List Call → Bool
  | _, [] => true
  | cleared, .xEventGroupClearBits mask :: cs => cleared_before_each_wait (cleared ||| mask) cs
  | cleared, .xEventGroupWaitBits mask :: cs =>
      allBits cleared mask && cleared_before_each_wait 0 cs
  | cleared, _ :: cs => cleared_before_each_wait cleared cs

/-- One clear per session: `cleared` is the mask cleared since the session was
created (`none` before the clear).  A second clear for the same session is
refused, and every wait must find its awaited bits in the cleared mask. -/
def cleared_once_per_session : Option EventBits → List Call → Bool
  | _, [] => true
  | cleared, c :: cs =>
    match c with
    | .xEventGroupClearBits mask => cleared.isNone && cleared_once_per_session (some mask) cs
    | .xEventGroupWaitBits mask =>
        (match cleared with
         | some m => allBits m mask
         | none => false) && cleared_once_per_session cleared cs
    | _ => cleared_once_per_session (if c.created.isSome then none else cleared) cs

/-- State of `cleared_once_per_session` after a trace. -/
def cleared_after : Option EventBits → List Call → Option EventBits
  | cleared, [] => cleared
  | cleared, c :: cs =>
    match c with
    | .xEventGroupClearBits mask => cleared_after (some mask) cs
    | .xEventGroupWaitBits _ => cleared_after cleared cs
    | _ => cleared_after (if c.created.isSome then none else cleared) cs

/-- The clears and waits of a trace. -/
def event_group_calls (t : List Call) : List Call :=
  t.filter (fun c =>
    match c with
    | .xEventGroupClearBits _ => true
    | .xEventGroupWaitBits _ => true
    | _ => false)

/-- Probe clients alive after a trace: non-`NULL` clients made and not yet
destroyed. -/
def live_clients : List Nat → List Call → List Nat
  | live, [] => live
  | live, .esp_mqtt_client_init ret :: cs => live_clients (if ret = 0 then live else live ++ [ret]) cs
  | live, .esp_mqtt_client_destroy c :: cs => live_clients (live.erase c) cs
  | live, _ :: cs => live_clients live cs

/-- The session operation whose result `app_main` checks at this program point,
with the arguments it passes. -/
def checked_op (cfg : Config) (s : State) : Option Call :=
  match s.pc with
  | .L242 => some (.esp_modem_set_flow_control s.dce 2 2)
  | .L272 => some (.esp_modem_set_pin s.dce cfg.sim_pin)
  | .L281 => some (.esp_modem_get_signal_quality s.dce)
  | .L289 => some (.esp_modem_sms_txt_mode s.dce)
  | .L289_charset => some (.esp_modem_sms_character_set s.dce)
  | .L294 =>
      some (.esp_modem_send_sms s.dce cfg.peer_phone_number "Text message from esp-modem")
  | .L301 => some (.esp_modem_set_mode s.dce .ESP_MODEM_MODE_DATA)
  | .L329 => some (.esp_modem_set_mode s.dce .ESP_MODEM_MODE_COMMAND)
  | .L335 => some (.esp_modem_get_imsi s.dce)
  | _ => none

/-- Conditions that justify being at a program point: one awaited condition at
the check after each wait, CONNECTED while the probe is started (lines 321-323),
GOT_DATA while it is stopped and the mode switched back (lines 328-329).  `c`,
`g`, `d` are the conditions CONNECTED, GOT_DATA, DEVICE_DISCONNECTED. -/
def waitOk (pc : Pc) (c g d : Bool) : Bool :=
  match pc with
  | .L309 => c || d
  | .L321 | .L322 | .L323 => c
  | .L326 => g || d
  | .L328 | .L329 => g
  | .L346 => d
  | _ => true

/-- Program points between the creation of a session and its destruction, where
`dce` is the live session. -/
def Pc.in_session : Pc → Bool
  | .L188 | .L189 | .L190 | .L191 | .L196 | .L199 | .L202 | .L203 => false
  | .L223 | .L256 => false
  | .L351 | .done | .aborted => false
  | _ => true

/-- Program points of one loop iteration after the clear of line 265 and before
the session is destroyed. -/
def Pc.after_clear : Pc → Bool
  | .L271 | .L272 | .L273 | .L281 | .L289 | .L289_charset | .L294 | .L301 => true
  | .L308 | .L308_blocked | .L309 | .L309_destroy => true
  | .L321 | .L322 | .L323 | .L325 | .L325_blocked | .L326 | .L326_destroy => true
  | .L328 | .L329 | .L335 | .L345 | .L345_blocked | .L346 | .L346_destroy => true
  | _ => false

/-- Program points of the USB loop body, with the two ways out of `app_main`. -/
def Pc.in_usb_loop : Pc → Bool
  | .L188 | .L189 | .L190 | .L191 | .L196 | .L199 | .L202 | .L203 => false
  | .L223 | .L242 | .L350 | .L351 | .done => false
  | _ => true

/-- In the UART build nothing sets the disconnect condition. -/
def UartInv (cfg : Config) (s : State) : Prop :=
  cfg.serial = .UART → s.has USB_DISCONNECTED_BIT = false

/-- The conditions justify the program point. -/
def WaitInv (s : State) : Prop :=
  waitOk s.pc (s.has CONNECT_BIT) (s.has GOT_DATA_BIT) (s.has USB_DISCONNECTED_BIT) = true

/-- Session handles are numbered in order of creation, and `dce` is the latest
one while a session is live. -/
def HandleInv (s : State) : Prop :=
  s.dce ≤ s.sessions_made ∧ (s.pc.in_session = true → s.dce = s.sessions_made ∧ 1 ≤ s.dce)

/-- The PIN phase (lines 271-273) is entered only when a PIN is configured. -/
def PinInv (cfg : Config) (s : State) : Prop :=
  (s.pc = .L271 ∨ s.pc = .L272 ∨ s.pc = .L273) → cfg.need_sim_pin = true

/-- The event group exists once it has been cleared. -/
def GroupInv (s : State) : Prop :=
  s.pc.after_clear = true → s.event_group ≠ none

/-- What holds of the variables at every reachable state. -/
def StateInv (cfg : Config) (s : State) : Prop :=
  UartInv cfg s ∧ WaitInv s ∧ HandleInv s ∧ PinInv cfg s ∧ GroupInv s

/-- How far a session has come: the program points of a session in the order
`app_main` runs through them (an early `return` counts as the end).  Zero outside
a session. -/
def Pc.stage : Pc → Nat
  | .L242 | .L258 => 1
  | .L259 => 2
  | .L265 => 3
  | .L271 => 4
  | .L272 => 5
  | .L273 => 6
  | .L281 => 7
  | .L289 => 8
  | .L289_charset => 9
  | .L294 => 10
  | .L301 => 11
  | .L308 => 12
  | .L308_blocked => 13
  | .L309 => 14
  | .L309_destroy | .L321 => 15
  | .L322 => 16
  | .L323 => 17
  | .L325 => 18
  | .L325_blocked => 19
  | .L326 => 20
  | .L326_destroy | .L328 => 21
  | .L329 => 22
  | .L335 => 23
  | .L345 | .L350 => 24
  | .L345_blocked => 25
  | .L346 => 26
  | .L346_destroy => 27
  | .returned => 100
  | _ => 0

/-- Calls of `esp_modem_set_pin`. -/
def Call.is_set_pin : Call → Bool
  | .esp_modem_set_pin _ _ => true
  | _ => false

/-- Calls of `esp_modem_set_mode`. -/
def Call.is_set_mode : Call → Bool
  | .esp_modem_set_mode _ _ => true
  | _ => false

/-- Along an execution: the state invariant, every session operation made so far
names a session made so far, and before the mode switch of line 301 no
`esp_modem_set_mode` was issued on the current session. -/
def PreDataInv (cfg : Config) (s : State) (t : List Call) : Prop :=
  StateInv cfg s ∧
  (∀ c ∈ t, ∀ d, c.session = some d → d ≤ s.sessions_made) ∧
  (s.pc.in_session = true → s.pc.stage ≤ 10 →
    ∀ c ∈ t, c.is_set_mode = true → c.session ≠ some s.dce)

/-- Session `d` is past its PIN phase: the program is beyond line 272 or works on
a later session. -/
def PostPin (d : Nat) (s : State) : Prop :=
  d ≤ s.sessions_made ∧ (s.pc.in_session = true → s.pc.stage ≤ 5 → d < s.dce)

/-- Calls of `esp_modem_destroy`. -/
def Call.is_destroy : Call → Bool
  | .esp_modem_destroy _ => true
  | _ => false

/-- The session the program holds at a program point: `dce` between creation and
destruction. -/
def live_of (s : State) : Option Nat := if s.pc.in_session = true then some s.dce else none

/-- Along an execution: the state invariant; the calls made so far follow the
session discipline and leave live exactly the session the program holds; and
every session made so far other than the live one was destroyed exactly once,
the live one never. -/
def LifeInv (cfg : Config) (s : State) (t : List Call) : Prop :=
  StateInv cfg s ∧
  ∃ live, lifecycle none t = some live ∧
    (s.pc ≠ .aborted → live = live_of s) ∧
    (∀ d, live = some d → d = s.sessions_made ∧ 1 ≤ d) ∧
    ∀ d, t.count (.esp_modem_destroy d) =
      if 1 ≤ d ∧ d ≤ s.sessions_made ∧ live ≠ some d then 1 else 0

/-- After the last statements of the UART build (lines 351-353) `dce` is still
the one session that was made. -/
def DoneInv (s : State) : Prop :=
  (s.pc = .L351 ∨ s.pc = .done) → s.dce = s.sessions_made ∧ 1 ≤ s.dce

/-- Program points of a session before its clear of line 265. -/
def Pc.before_clear : Pc → Bool
  | .L242 | .L258 | .L259 | .L265 => true
  | _ => false

/-- Along an execution: the calls made so far clear once per session, and the
clear of the current session has been made exactly when the program is past line
265. -/
def ClearInv (s : State) (t : List Call) : Prop :=
  cleared_once_per_session none t = true ∧
  (s.pc.after_clear = true → cleared_after none t = some ALL_BITS) ∧
  (s.pc.before_clear = true → cleared_after none t = none)

/-- Calls of `xEventGroupClearBits`. -/
def Call.is_clear : Call → Bool
  | .xEventGroupClearBits _ => true
  | _ => false

/-- Session `d` is over: it was made earlier, and the session the program now
works on, if any, is a later one. -/
def Fresh (d : Nat) (s : State) : Prop :=
  d ≤ s.sessions_made ∧ (s.pc.in_session = true → d < s.dce)

/-- Program points from which the clear of line 265 is reached only through the
creation of a new session: past the clear, at the top of the hot-plug loop, in
the clean-up of the fixed-wire build, and outside `app_main`. -/
def Pc.no_clear_ahead : Pc → Bool
  | .L256 | .L350 | .L351 | .done | .returned | .aborted => true
  | pc => pc.after_clear

/-- A USB (hot-plug) build that needs a SIM PIN. -/
def cfgUSB : Config :=
  { serial := .USB, device := .SIM7070, flow_control := .NONE, need_sim_pin := true,
    sim_pin := "1234", send_msg := false, peer_phone_number := "",
    mqtt_test_topic := "/topic/esp-pppos", mqtt_test_data := "esp32-pppos" }

/-- A UART (fixed-wire) build that needs a SIM PIN. -/
def cfgUART : Config :=
  { serial := .UART, device := .BG96, flow_control := .NONE, need_sim_pin := true,
    sim_pin := "1234", send_msg := false, peer_phone_number := "",
    mqtt_test_topic := "/topic/esp-pppos", mqtt_test_data := "esp32-pppos" }

/-- An orchestrator step whose call succeeds, the PIN being verified. -/
def okStep : Input := .main true true

/-- Orchestrator steps from the entry of `app_main` up to the session creation
(lines 188-203). -/
def setup : List Input := List.replicate 8 okStep

/-- USB: from entry to line 265, the session made and the callback registered. -/
def usbToClear : List Input := setup ++ List.replicate 3 okStep

/-- USB: from entry until blocked in the wait for an IP address (line 308). -/
def usbToIpWait : List Input := usbToClear ++ List.replicate 5 okStep

/-- USB: from entry to line 321, about to start the probe, the IP address having
arrived. -/
def usbToProbe : List Input :=
  usbToIpWait ++ [.ip_event .IP_EVENT_PPP_GOT_IP] ++ List.replicate 2 okStep

/-- USB: from entry until blocked in the wait for broker data (line 325). -/
def usbToDataWait : List Input := usbToProbe ++ List.replicate 4 okStep

/-- USB: from entry to the check after the wait for broker data (line 326), the
device having gone while the orchestrator waited. -/
def usbToDataCheck : List Input :=
  usbToDataWait ++ [.terminal_error .ESP_MODEM_TERMINAL_DEVICE_GONE, okStep]

/-- USB: the device goes while the first session waits for broker data, so that
its probe client is never stopped.  The second session is brought up until it is
blocked in the wait for its IP address (line 308); there the IP address arrives,
and the client of the first session delivers a message over the new link.  The
orchestrator then runs on to line 325. -/
def usbStaleData : List Input :=
  usbToDataCheck ++ List.replicate 10 okStep ++
    [.ip_event .IP_EVENT_PPP_GOT_IP, .mqtt_event 1 .MQTT_EVENT_DATA] ++ List.replicate 5 okStep

/-- UART: from entry to line 271, about to read the PIN status. -/
def uartToPin : List Input := setup ++ List.replicate 2 okStep

/-- UART: a complete run, the IP address and the broker data arriving while the
orchestrator waits for them. -/
def uartHappy : List Input :=
  uartToPin ++ List.replicate 4 okStep ++ [.ip_event .IP_EVENT_PPP_GOT_IP] ++
    List.replicate 6 okStep ++ [.mqtt_event 1 .MQTT_EVENT_DATA] ++ List.replicate 7 okStep

/-! ## Facts about the event bits -/

theorem isSet_BIT (n i : Nat) : isSet (BIT n) i = decide (n = i) := by
  simp [isSet, BIT, Nat.one_shiftLeft, Nat.testBit_two_pow]

theorem isSet_or (a b : EventBits) (k : Nat) : isSet (a ||| b) k = (isSet a k || isSet b k) := by
  simp only [isSet, Nat.testBit_or]

theorem isSet_zero (k : Nat) : isSet 0 k = false := by
  simp only [isSet, Nat.zero_testBit]

theorem isSet_setBits (bits mask : EventBits) (k : Nat) :
    isSet (setBits bits mask) k = (isSet bits k || isSet mask k) := by
  simp only [isSet, setBits, Nat.testBit_or]

theorem isSet_clearBits (bits mask : EventBits) (k : Nat) :
    isSet (clearBits bits mask) k = (isSet bits k && !isSet mask k) := by
  simp only [isSet, clearBits, Nat.testBit_xor, Nat.testBit_and]
  cases bits.testBit k <;> cases mask.testBit k <;> rfl

theorem eq_of_isSet_eq {x y : EventBits} (h : ∀ i, isSet x i = isSet y i) : x = y :=
  Nat.eq_of_testBit_eq h

theorem isSet_and (a b : EventBits) (k : Nat) : isSet (a &&& b) k = (isSet a k && isSet b k) := by
  simp only [isSet, Nat.testBit_and]

theorem allBits_BIT (bits : EventBits) (a : Nat) : allBits bits (BIT a) = isSet bits a := by
  cases h : isSet bits a
  · simp only [allBits, beq_eq_false_iff_ne, ne_eq]
    intro heq
    have h2 := congrArg (fun x => isSet x a) heq
    simp [isSet_and, isSet_BIT, h] at h2
  · simp only [allBits, beq_iff_eq]
    apply eq_of_isSet_eq
    intro i
    by_cases hi : a = i
    · subst hi; simp [isSet_and, isSet_BIT, h]
    · simp [isSet_and, isSet_BIT, hi]

theorem anyBit_pair (bits : EventBits) (a b : Nat) :
    anyBit bits (BIT a ||| BIT b) = (isSet bits a || isSet bits b) := by
  cases h : (isSet bits a || isSet bits b)
  · simp only [anyBit, bne_eq_false_iff_eq]
    rw [Bool.or_eq_false_iff] at h
    apply eq_of_isSet_eq
    intro i
    by_cases ha : a = i
    · subst ha; simp [isSet_and, isSet_zero, h.1]
    · by_cases hb : b = i
      · subst hb; simp [isSet_and, isSet_zero, h.2]
      · simp [isSet_and, isSet_or, isSet_zero, isSet_BIT, ha, hb]
  · simp only [anyBit, bne_iff_ne, ne_eq]
    intro heq
    rw [Bool.or_eq_true] at h
    rcases h with h | h
    · have h2 := congrArg (fun x => isSet x a) heq
      simp [isSet_and, isSet_or, isSet_zero, isSet_BIT, h] at h2
    · have h2 := congrArg (fun x => isSet x b) heq
      simp [isSet_and, isSet_or, isSet_zero, isSet_BIT, h] at h2

theorem anyBit_BIT (bits : EventBits) (a : Nat) : anyBit bits (BIT a) = isSet bits a := by
  have h := anyBit_pair bits a a
  simpa using h

/-! ## Executions -/

theorem run_append (cfg : Config) (xs ys : List Input) (s : State) :
    run cfg s (xs ++ ys) = run cfg (run cfg s xs) ys := by
  induction xs generalizing s with
  | nil => rfl
  | cons i is ih => simp only [List.cons_append, run]; exact ih _

theorem trace_append (cfg : Config) (xs ys : List Input) (s : State) :
    trace cfg s (xs ++ ys) = trace cfg s xs ++ trace cfg (run cfg s xs) ys := by
  induction xs generalizing s with
  | nil => rfl
  | cons i is ih =>
    show (step cfg s i).2 ++ trace cfg (step cfg s i).1 (is ++ ys) = _
    rw [ih]
    simp [trace, run, List.append_assoc]

/-- A property kept by every step holds after every interleaving. -/
theorem run_invariant (cfg : Config) (P : State → Prop)
    (hstep : ∀ s i, P s → P (step cfg s i).1) :
    ∀ (inputs : List Input) (s : State), P s → P (run cfg s inputs) := by
  intro inputs
  induction inputs with
  | nil => intro s h; exact h
  | cons i is ih => intro s h; exact ih _ (hstep s i h)

/-- A property of the state and of the calls made so far that every step keeps
holds along every interleaving. -/
theorem trace_invariant (cfg : Config) (P : State → List Call → Prop)
    (hstep : ∀ s t i, P s t → P (step cfg s i).1 (t ++ (step cfg s i).2)) :
    ∀ (inputs : List Input) (s : State) (t : List Call),
      P s t → P (run cfg s inputs) (t ++ trace cfg s inputs) := by
  intro inputs
  induction inputs with
  | nil => intro s t h; simpa [run, trace] using h
  | cons i is ih =>
    intro s t h
    have h2 := ih _ _ (hstep s t i h)
    simpa [run, trace, List.append_assoc] using h2

/-- Every call emitted along an interleaving satisfies `Q` when each step from a
state in `P` stays in `P` and emits only calls satisfying `Q`. -/
theorem trace_forall (cfg : Config) (P : State → Prop) (Q : Call → Prop)
    (hstep : ∀ s i, P s → P (step cfg s i).1 ∧ ∀ c ∈ (step cfg s i).2, Q c) :
    ∀ (inputs : List Input) (s : State), P s → ∀ c ∈ trace cfg s inputs, Q c := by
  intro inputs
  induction inputs with
  | nil => intro s _ c hc; simp [trace] at hc
  | cons i is ih =>
    intro s h c hc
    simp only [trace, List.mem_append] at hc
    rcases hc with hc | hc
    · exact (hstep s i h).2 c hc
    · exact ih _ (hstep s i h).1 c hc

/-! ## Steps of the handlers -/

/-- A handler step leaves the state alone or sets one condition; in the UART
build the disconnect condition is not among them.  The calls it makes are broker
requests. -/
theorem handler_step (cfg : Config) (s : State) (i : Input) (hi : i.is_main = false) :
    ((step cfg s i).1 = s ∨ (step cfg s i).1 = xEventGroupSetBits s CONNECT_BIT ∨
      (step cfg s i).1 = xEventGroupSetBits s GOT_DATA_BIT ∨
      (cfg.serial = .USB ∧ (step cfg s i).1 = xEventGroupSetBits s USB_DISCONNECTED_BIT)) ∧
    ∀ c ∈ (step cfg s i).2, c.by_handler = true := by
  by_cases hab : s.pc = .aborted
  · simp [step, hab]
  · cases i with
    | main ok p => simp [Input.is_main] at hi
    | ip_event id => cases id <;> simp [step, hab, on_ip_event]
    | ppp_event id => simp [step, hab, on_ppp_changed]
    | mqtt_event c id => cases id <;> simp [step, hab, mqtt_event_handler, Call.by_handler]
    | terminal_error e =>
      rcases hser : cfg.serial <;> cases e <;>
        simp [step, hab, hser, usb_terminal_error_handler]

/-- A handler step never moves the orchestrator, except that it ends the run when
it finds the event group missing. -/
theorem handler_step_fields (cfg : Config) (s : State) (i : Input) (hi : i.is_main = false) :
    ((step cfg s i).1.pc = s.pc ∨ (s.event_group = none ∧ (step cfg s i).1.pc = .aborted)) ∧
    (step cfg s i).1.dce = s.dce ∧ (step cfg s i).1.sessions_made = s.sessions_made ∧
    (step cfg s i).1.mqtt_client = s.mqtt_client ∧
    (step cfg s i).1.clients_made = s.clients_made ∧
    (∀ bits, s.event_group = some bits →
      ∃ bits2, (step cfg s i).1.event_group = some bits2 ∧
        ∀ k, isSet bits k = true → isSet bits2 k = true) := by
  have h := (handler_step cfg s i hi).1
  rcases s with ⟨pc, _ | bits, dce, mc, sm, cm⟩ <;>
  rcases h with h | h | h | ⟨_, h⟩ <;> rw [h] <;>
    simp [xEventGroupSetBits, isSet_setBits] <;> intro k hk <;> simp [hk]

theorem mains_cons (i : Input) (is : List Input) :
    mains (i :: is) = mains is + (if i.is_main = true then 1 else 0) := by
  simp [mains, List.countP_cons]

theorem mains_append (xs ys : List Input) : mains (xs ++ ys) = mains xs + mains ys := by
  simp [mains, List.countP_append]

/-- After a run of handler steps from a state whose event group exists. -/
theorem handlers_run (cfg : Config) (hs : List Input) (hh : mains hs = 0) (s : State)
    (bits : EventBits) (hg : s.event_group = some bits) :
    (run cfg s hs).pc = s.pc ∧ (run cfg s hs).dce = s.dce ∧
    (run cfg s hs).sessions_made = s.sessions_made ∧
    (run cfg s hs).mqtt_client = s.mqtt_client ∧
    (run cfg s hs).clients_made = s.clients_made ∧
    (∃ bits2, (run cfg s hs).event_group = some bits2 ∧
        ∀ k, isSet bits k = true → isSet bits2 k = true) ∧
    ∀ c ∈ trace cfg s hs, c.by_handler = true := by
  induction hs generalizing s bits with
  | nil => simp [run, trace, hg]
  | cons i is ih =>
    have hi : i.is_main = false := by
      cases h : i.is_main
      · rfl
      · simp [mains_cons, h] at hh
    have his : mains is = 0 := by
      simpa [mains_cons, hi] using hh
    have hf := handler_step_fields cfg s i hi
    obtain ⟨b2, hb2, hmono⟩ := hf.2.2.2.2.2 bits hg
    have hpc : (step cfg s i).1.pc = s.pc := by
      rcases hf.1 with h | ⟨h, _⟩
      · exact h
      · rw [hg] at h; cases h
    have := ih his (step cfg s i).1 b2 hb2
    obtain ⟨h1, h2, h3, h4, h5, ⟨b3, hb3, hm3⟩, h6⟩ := this
    refine ⟨by simp [run, h1, hpc], by simp [run, h2, hf.2.1], by simp [run, h3, hf.2.2.1],
      by simp [run, h4, hf.2.2.2.1], by simp [run, h5, hf.2.2.2.2.1],
      ⟨b3, by simp [run, hb3], fun k hk => hm3 k (hmono k hk)⟩, ?_⟩
    intro c hc
    simp only [trace, List.mem_append] at hc
    rcases hc with hc | hc
    · exact (handler_step cfg s i hi).2 c hc
    · exact h6 c hc

/-- An interleaving is handler steps only, or handler steps up to a first
orchestrator step. -/
theorem split_at_main (inputs : List Input) :
    mains inputs = 0 ∨
    ∃ hs ok p rest, inputs = hs ++ Input.main ok p :: rest ∧ mains hs = 0 ∧
      mains inputs = mains rest + 1 := by
  induction inputs with
  | nil => left; rfl
  | cons i is ih =>
    cases h : i.is_main
    · rcases ih with h0 | ⟨hs, ok, p, rest, h1, h2, h3⟩
      · left; simp [mains_cons, h, h0]
      · right
        exact ⟨i :: hs, ok, p, rest, by simp [h1], by simp [mains_cons, h, h2],
          by simp [mains_cons, h, h3]⟩
    · right
      cases i with
      | main ok p => exact ⟨[], ok, p, is, rfl, rfl, by simp [mains_cons, Input.is_main]⟩
      | ip_event id => simp [Input.is_main] at h
      | ppp_event id => simp [Input.is_main] at h
      | mqtt_event c id => simp [Input.is_main] at h
      | terminal_error e => simp [Input.is_main] at h

/-- Nothing runs after an abort. -/
theorem aborted_run (cfg : Config) (inputs : List Input) (s : State) (h : s.pc = .aborted) :
    run cfg s inputs = s ∧ trace cfg s inputs = [] := by
  induction inputs with
  | nil => exact ⟨rfl, rfl⟩
  | cons i is ih => simp [run, trace, step, h, ih]

/-! ## The handlers (C7, C8) -/

/-- C7: the Network Attachment Observer only translates notifications into
conditions.  For every prior flag state, the IPv4-acquired notification yields the
prior state with CONNECTED set; IP-lost, IPv6-acquired, every other IP event id
and every link-layer notification (the user-interrupt one included) leave the
state unchanged; GOT_DATA and DEVICE_DISCONNECTED are never modified. -/
theorem observer_translates (s : State) (bits : EventBits) (hg : s.event_group = some bits) :
    on_ip_event .IP_EVENT_PPP_GOT_IP s =
      { s with event_group := some (setBits bits CONNECT_BIT) } ∧
    (on_ip_event .IP_EVENT_PPP_GOT_IP s).has CONNECT_BIT = true ∧
    on_ip_event .IP_EVENT_PPP_LOST_IP s = s ∧
    on_ip_event .IP_EVENT_GOT_IP6 s = s ∧
    (∀ n, on_ip_event (.other n) s = s) ∧
    (∀ id, on_ppp_changed id s = s) ∧
    (∀ id, (on_ip_event id s).has GOT_DATA_BIT = s.has GOT_DATA_BIT ∧
      (on_ip_event id s).has USB_DISCONNECTED_BIT = s.has USB_DISCONNECTED_BIT) := by
  rcases s with ⟨pc, eg, dce, mc, sm, cm⟩
  simp only at hg
  subst hg
  refine ⟨?_, ?_, ?_, ?_, ?_, ?_, ?_⟩
  · simp [on_ip_event, xEventGroupSetBits]
  · simp [on_ip_event, xEventGroupSetBits, State.has, allBits_BIT, CONNECT_BIT, isSet_setBits,
      isSet_BIT]
  · simp [on_ip_event]
  · simp [on_ip_event]
  · intro n; simp [on_ip_event]
  · intro id; simp [on_ppp_changed]
  · intro id
    cases id <;>
      simp [on_ip_event, xEventGroupSetBits, State.has, allBits_BIT, CONNECT_BIT, GOT_DATA_BIT,
        USB_DISCONNECTED_BIT, isSet_setBits, isSet_BIT]

/-- Witness for C7: the state blocked in the wait for an IP
address. -/
theorem observer_translates_witness :
    (run cfgUSB .init usbToIpWait).event_group = some 0 ∧
    on_ip_event .IP_EVENT_PPP_GOT_IP (run cfgUSB .init usbToIpWait) =
      { run cfgUSB .init usbToIpWait with event_group := some (setBits 0 CONNECT_BIT) } :=
  ⟨by decide, (observer_translates (run cfgUSB .init usbToIpWait) 0 (by decide)).1⟩

/-- C8: the Application Traffic Probe handler.  On connect it issues exactly one
subscribe to the test topic; on subscribe-ack exactly one publish of the test
payload to the same topic; on message delivery it sets GOT_DATA; for every other
event kind it issues no broker request and leaves the state unchanged; CONNECTED
and DEVICE_DISCONNECTED are never modified. -/
theorem probe_handler_round_trip (cfg : Config) (client : Nat) (s : State) (bits : EventBits)
    (hg : s.event_group = some bits) :
    mqtt_event_handler cfg client .MQTT_EVENT_CONNECTED s =
      (s, [.esp_mqtt_client_subscribe client cfg.mqtt_test_topic 0]) ∧
    mqtt_event_handler cfg client .MQTT_EVENT_SUBSCRIBED s =
      (s, [.esp_mqtt_client_publish client cfg.mqtt_test_topic cfg.mqtt_test_data 0 0 0]) ∧
    mqtt_event_handler cfg client .MQTT_EVENT_DATA s =
      ({ s with event_group := some (setBits bits GOT_DATA_BIT) }, []) ∧
    (mqtt_event_handler cfg client .MQTT_EVENT_DATA s).1.has GOT_DATA_BIT = true ∧
    (∀ id, id ≠ .MQTT_EVENT_CONNECTED → id ≠ .MQTT_EVENT_SUBSCRIBED → id ≠ .MQTT_EVENT_DATA →
      mqtt_event_handler cfg client id s = (s, [])) ∧
    (∀ id, (mqtt_event_handler cfg client id s).1.has CONNECT_BIT = s.has CONNECT_BIT ∧
      (mqtt_event_handler cfg client id s).1.has USB_DISCONNECTED_BIT =
        s.has USB_DISCONNECTED_BIT) := by
  rcases s with ⟨pc, eg, dce, mc, sm, cm⟩
  simp only at hg
  subst hg
  refine ⟨rfl, rfl, ?_, ?_, ?_, ?_⟩
  · simp [mqtt_event_handler, xEventGroupSetBits]
  · simp [mqtt_event_handler, xEventGroupSetBits, State.has, allBits_BIT, GOT_DATA_BIT,
      isSet_setBits, isSet_BIT]
  · intro id h1 h2 h3
    cases id <;> simp_all [mqtt_event_handler]
  · intro id
    cases id <;>
      simp [mqtt_event_handler, xEventGroupSetBits, State.has, allBits_BIT, CONNECT_BIT,
        GOT_DATA_BIT, USB_DISCONNECTED_BIT, isSet_setBits, isSet_BIT]

/-- Witness for C8: the state blocked in the wait for
broker data, the delivery notification coming from the running client. -/
theorem probe_handler_round_trip_witness :
    (run cfgUSB .init usbToDataWait).event_group = some 1 ∧
    mqtt_event_handler cfgUSB 1 .MQTT_EVENT_DATA (run cfgUSB .init usbToDataWait) =
      ({ run cfgUSB .init usbToDataWait with event_group := some (setBits 1 GOT_DATA_BIT) },
        []) :=
  ⟨by decide,
    (probe_handler_round_trip cfgUSB 1 (run cfgUSB .init usbToDataWait) 1 (by decide)).2.2.1⟩


/-! ## The state invariant -/

theorem setBits_cases (s : State) (k : Nat) :
    (s.event_group = none ∧ xEventGroupSetBits s (BIT k) = { s with pc := .aborted }) ∨
    ∃ bits, s.event_group = some bits ∧
      xEventGroupSetBits s (BIT k) = { s with event_group := some (setBits bits (BIT k)) } := by
  rcases s with ⟨pc, _ | bits, dce, mc, sm, cm⟩
  · left; exact ⟨rfl, rfl⟩
  · right; exact ⟨bits, rfl, rfl⟩

theorem waitOk_mono (pc : Pc) (c g d c2 g2 d2 : Bool) (h : waitOk pc c g d = true)
    (hc : c = true → c2 = true) (hg : g = true → g2 = true) (hd : d = true → d2 = true) :
    waitOk pc c2 g2 d2 = true := by
  cases pc <;> simp only [waitOk] at h ⊢ <;>
    first
      | rfl
      | (revert h hc hg hd
         cases c <;> cases g <;> cases d <;> cases c2 <;> cases g2 <;> cases d2 <;> simp)

theorem uartInv_main (cfg : Config) (s : State) (ok p : Bool) (h : UartInv cfg s) :
    UartInv cfg (main_step cfg s ok p).1 := by
  rcases s with ⟨pc, eg, dce, mc, sm, cm⟩
  cases pc <;> cases ok <;>
  simp only [main_step, checked, wait_enter, wait_return, check_usb_disconnection, check_body,
    after_new_uart, ↓reduceIte, Bool.false_eq_true] <;>
  (try split) <;> (try split) <;> (try split) <;>
  first
    | exact h
    | (simp_all [UartInv, State.has, allBits_BIT, USB_DISCONNECTED_BIT, ALL_BITS,
        isSet_clearBits, isSet_BIT, isSet_or, isSet_zero])

theorem waitInv_main (cfg : Config) (s : State) (ok p : Bool) (hu : UartInv cfg s)
    (h : WaitInv s) : WaitInv (main_step cfg s ok p).1 := by
  rcases s with ⟨pc, eg, dce, mc, sm, cm⟩
  cases pc <;> cases ok <;>
  simp only [main_step, checked, wait_enter, wait_return, check_usb_disconnection, check_body,
    after_new_uart, ↓reduceIte, Bool.false_eq_true] <;>
  (try split) <;> (try split) <;> (try split) <;>
  first
    | rfl
    | (simp_all [UartInv, WaitInv, waitOk, State.has, allBits_BIT, anyBit_pair, anyBit_BIT,
        CONNECT_BIT, GOT_DATA_BIT, USB_DISCONNECTED_BIT])

theorem handleInv_main (cfg : Config) (s : State) (ok p : Bool) (h : HandleInv s) :
    HandleInv (main_step cfg s ok p).1 := by
  rcases s with ⟨pc, eg, dce, mc, sm, cm⟩
  cases pc <;> cases ok <;>
  simp only [main_step, checked, wait_enter, wait_return, check_usb_disconnection, check_body,
    after_new_uart, ↓reduceIte, Bool.false_eq_true] <;>
  (try split) <;> (try split) <;> (try split) <;>
  simp only [HandleInv, Pc.in_session, Bool.false_eq_true, false_implies, true_implies,
    and_true, forall_const] at h ⊢ <;>
  first
    | exact h
    | omega
    | (simp)

theorem pinInv_main (cfg : Config) (s : State) (ok p : Bool) (h : PinInv cfg s) :
    PinInv cfg (main_step cfg s ok p).1 := by
  rcases s with ⟨pc, eg, dce, mc, sm, cm⟩
  cases pc <;> cases ok <;>
  simp only [main_step, checked, wait_enter, wait_return, check_usb_disconnection, check_body,
    after_new_uart, ↓reduceIte, Bool.false_eq_true] <;>
  (try split) <;> (try split) <;> (try split) <;>
  first
    | exact h
    | (simp_all [PinInv])

theorem groupInv_main (cfg : Config) (s : State) (ok p : Bool) (h : GroupInv s) :
    GroupInv (main_step cfg s ok p).1 := by
  rcases s with ⟨pc, eg, dce, mc, sm, cm⟩
  cases pc <;> cases ok <;>
  simp only [main_step, checked, wait_enter, wait_return, check_usb_disconnection, check_body,
    after_new_uart, ↓reduceIte, Bool.false_eq_true] <;>
  (try split) <;> (try split) <;> (try split) <;>
  first
    | exact h
    | (simp_all [GroupInv, Pc.after_clear])

theorem stateInv_init (cfg : Config) : StateInv cfg .init := by
  simp [StateInv, UartInv, WaitInv, HandleInv, PinInv, GroupInv, State.init, State.has, waitOk,
    Pc.in_session, Pc.after_clear]

theorem stateInv_main (cfg : Config) (s : State) (ok p : Bool) (h : StateInv cfg s) :
    StateInv cfg (main_step cfg s ok p).1 :=
  ⟨uartInv_main cfg s ok p h.1, waitInv_main cfg s ok p h.1 h.2.1,
    handleInv_main cfg s ok p h.2.2.1, pinInv_main cfg s ok p h.2.2.2.1,
    groupInv_main cfg s ok p h.2.2.2.2⟩

theorem stateInv_aborted (cfg : Config) (s : State) (h : StateInv cfg s) :
    StateInv cfg { s with pc := .aborted } := by
  obtain ⟨h1, h2, h3, h4, h5⟩ := h
  refine ⟨h1, ?_, ⟨h3.1, ?_⟩, ?_, ?_⟩
  · simp [WaitInv, waitOk]
  · simp [Pc.in_session]
  · simp [PinInv]
  · simp [GroupInv, Pc.after_clear]

theorem stateInv_set (cfg : Config) (s : State) (k : Nat) (h : StateInv cfg s)
    (hk : k = 0 ∨ k = 2 ∨ (k = 3 ∧ cfg.serial = .USB)) :
    StateInv cfg (xEventGroupSetBits s (BIT k)) := by
  rcases setBits_cases s k with ⟨_, he⟩ | ⟨bits, hb, he⟩
  · rw [he]; exact stateInv_aborted cfg s h
  · rw [he]
    obtain ⟨h1, h2, h3, h4, h5⟩ := h
    refine ⟨?_, ?_, h3, h4, ?_⟩
    · intro hu
      have h1b := h1 hu
      simp only [State.has, hb, allBits_BIT, USB_DISCONNECTED_BIT] at h1b
      simp only [State.has, allBits_BIT, USB_DISCONNECTED_BIT, isSet_setBits, isSet_BIT, h1b]
      rcases hk with hk | hk | ⟨_, hk⟩
      · subst hk; rfl
      · subst hk; rfl
      · rw [hu] at hk; cases hk
    · simp only [WaitInv, State.has, hb, allBits_BIT, CONNECT_BIT, GOT_DATA_BIT,
        USB_DISCONNECTED_BIT] at h2 ⊢
      refine waitOk_mono _ _ _ _ _ _ _ h2 ?_ ?_ ?_ <;> intro hx <;> simp [isSet_setBits, hx]
    · intro hp
      simp

theorem stateInv_step (cfg : Config) (s : State) (i : Input) (h : StateInv cfg s) :
    StateInv cfg (step cfg s i).1 := by
  cases hi : i.is_main
  · rcases (handler_step cfg s i hi).1 with h1 | h1 | h1 | ⟨hu, h1⟩ <;> rw [h1]
    · exact h
    · exact stateInv_set cfg s 0 h (Or.inl rfl)
    · exact stateInv_set cfg s 2 h (Or.inr (Or.inl rfl))
    · exact stateInv_set cfg s 3 h (Or.inr (Or.inr ⟨rfl, hu⟩))
  · cases i with
    | main ok p =>
      by_cases hab : s.pc = .aborted
      · simp only [step, hab, ↓reduceIte]; exact h
      · simp only [step, hab, ↓reduceIte]; exact stateInv_main cfg s ok p h
    | ip_event id => simp [Input.is_main] at hi
    | ppp_event id => simp [Input.is_main] at hi
    | mqtt_event c id => simp [Input.is_main] at hi
    | terminal_error e => simp [Input.is_main] at hi

/-- The state invariant holds at every reachable state. -/
theorem stateInv_reachable (cfg : Config) (inputs : List Input) :
    StateInv cfg (run cfg .init inputs) :=
  run_invariant cfg (StateInv cfg) (stateInv_step cfg) inputs .init (stateInv_init cfg)


/-! ## Waits and conditions (C3) -/

theorem probe_calls_pc (cfg : Config) (s : State) (ok p : Bool) :
    (∀ c ∈ (main_step cfg s ok p).2, c.starts_probe = true →
      s.pc = .L321 ∨ s.pc = .L322 ∨ s.pc = .L323) ∧
    (∀ c ∈ (main_step cfg s ok p).2, c.ends_traffic = true → s.pc = .L328 ∨ s.pc = .L329) := by
  rcases s with ⟨pc, eg, dce, mc, sm, cm⟩
  cases pc <;> cases ok <;>
  simp only [main_step, checked, wait_enter, wait_return, check_usb_disconnection, check_body,
    after_new_uart, new_dev_call, wakeup_modem, ↓reduceIte, Bool.false_eq_true] <;>
  (try split) <;> (try split) <;> (try split) <;>
  simp [Call.starts_probe, Call.ends_traffic]

/-- C3: with waits that never time out and for every interleaving of the
handlers, the orchestrator never proceeds past a wait without a condition of
that wait being set.  At every reachable state: a call that starts the traffic
probe is made only with CONNECTED set; the probe is stopped and command mode
requested only with GOT_DATA set; at the check after each wait an awaited
condition is set; and in the hot-plug build a check that finds
DEVICE_DISCONNECTED set enters the disconnect path whatever else is set. -/
theorem no_progress_without_condition (cfg : Config) (inputs : List Input) (ok p : Bool) :
    (∀ c ∈ (step cfg (run cfg .init inputs) (.main ok p)).2, c.starts_probe = true →
      (run cfg .init inputs).has CONNECT_BIT = true) ∧
    (∀ c ∈ (step cfg (run cfg .init inputs) (.main ok p)).2, c.ends_traffic = true →
      (run cfg .init inputs).has GOT_DATA_BIT = true) ∧
    ((run cfg .init inputs).pc = .L309 →
      (run cfg .init inputs).has CONNECT_BIT = true ∨
        (run cfg .init inputs).has USB_DISCONNECTED_BIT = true) ∧
    ((run cfg .init inputs).pc = .L326 →
      (run cfg .init inputs).has GOT_DATA_BIT = true ∨
        (run cfg .init inputs).has USB_DISCONNECTED_BIT = true) ∧
    ((run cfg .init inputs).pc = .L346 →
      (run cfg .init inputs).has USB_DISCONNECTED_BIT = true) ∧
    (cfg.serial = .USB → (run cfg .init inputs).has USB_DISCONNECTED_BIT = true →
      ((run cfg .init inputs).pc = .L309 →
        (step cfg (run cfg .init inputs) (.main ok p)).1.pc = .L309_destroy) ∧
      ((run cfg .init inputs).pc = .L326 →
        (step cfg (run cfg .init inputs) (.main ok p)).1.pc = .L326_destroy) ∧
      ((run cfg .init inputs).pc = .L346 →
        (step cfg (run cfg .init inputs) (.main ok p)).1.pc = .L346_destroy)) := by
  have hinv := stateInv_reachable cfg inputs
  generalize run cfg .init inputs = s at hinv ⊢
  have hw : waitOk s.pc (s.has CONNECT_BIT) (s.has GOT_DATA_BIT) (s.has USB_DISCONNECTED_BIT)
      = true := hinv.2.1
  refine ⟨?_, ?_, ?_, ?_, ?_, ?_⟩
  · intro c hc hcs
    by_cases hab : s.pc = .aborted
    · simp [step, hab] at hc
    · simp only [step, hab, ↓reduceIte] at hc
      rcases (probe_calls_pc cfg s ok p).1 c hc hcs with h | h | h <;>
        simpa [waitOk, h] using hw
  · intro c hc hcs
    by_cases hab : s.pc = .aborted
    · simp [step, hab] at hc
    · simp only [step, hab, ↓reduceIte] at hc
      rcases (probe_calls_pc cfg s ok p).2 c hc hcs with h | h <;>
        simpa [waitOk, h] using hw
  · intro h; simpa [waitOk, h] using hw
  · intro h; simpa [waitOk, h] using hw
  · intro h; simpa [waitOk, h] using hw
  · intro hu hd
    rcases s with ⟨pc, _ | bits, dce, mc, sm, cm⟩
    · simp [State.has] at hd
    · simp only [State.has] at hd
      refine ⟨?_, ?_, ?_⟩ <;> intro h <;> simp only at h <;> subst h <;>
        simp [step, main_step, check_usb_disconnection, hu, hd]

/-- Witness for C3: the hot-plug run that reaches
line 321 after the IP address arrived starts the probe with CONNECTED set. -/
theorem no_progress_without_condition_witness :
    Call.esp_mqtt_client_init 1 ∈ (step cfgUSB (run cfgUSB .init usbToProbe) okStep).2 ∧
    (run cfgUSB .init usbToProbe).has CONNECT_BIT = true :=
  ⟨by decide,
    (no_progress_without_condition cfgUSB usbToProbe true true).1 (.esp_mqtt_client_init 1)
      (by decide) rfl⟩


/-! ## Statements of `app_main`, one at a time -/

theorem by_handler_not_session (c : Call) (h : c.by_handler = true) :
    c.is_session = false ∧ c.session = none ∧ c.is_netif = false ∧ c.created = none := by
  cases c <;> first | exact ⟨rfl, rfl, rfl, rfl⟩ | exact Bool.noConfusion h

theorem session_calls_append (t u : List Call) :
    session_calls (t ++ u) = session_calls t ++ session_calls u := by
  simp [session_calls]

theorem session_calls_handlers (t : List Call) (h : ∀ c ∈ t, c.by_handler = true) :
    session_calls t = [] := by
  simp only [session_calls, List.filter_eq_nil_iff]
  intro c hc
  simp [(by_handler_not_session c (h c hc)).1]

/-- Every session operation `app_main` issues is on `dce`, from a program point
where the session is live. -/
theorem main_step_sessions (cfg : Config) (s : State) (ok p : Bool) :
    ∀ c ∈ (main_step cfg s ok p).2,
      c.session = none ∨ (c.session = some s.dce ∧ s.pc.in_session = true) := by
  rcases s with ⟨pc, eg, dce, mc, sm, cm⟩
  cases pc <;>
  dsimp only [main_step, checked, wait_enter, wait_return, check_usb_disconnection, check_body,
    after_new_uart, new_dev_call, wakeup_modem] <;>
  (try split) <;> (try split) <;> (try split) <;>
  simp only [List.mem_singleton, forall_eq, List.mem_cons, forall_eq_or_imp, List.not_mem_nil,
    IsEmpty.forall_iff, implies_true, and_true] <;>
  first
    | exact Or.inl rfl
    | exact Or.inr ⟨rfl, rfl⟩
    | exact ⟨Or.inl rfl, Or.inl rfl, Or.inl rfl, Or.inl rfl, Or.inl rfl, Or.inl rfl, Or.inl rfl,
        Or.inl rfl⟩

/-- How a statement of `app_main` changes the session handles: not at all, keeping
the program inside or outside a session, except for entering one by a creation
and leaving by an abort. -/
theorem main_step_handles (cfg : Config) (s : State) (ok p : Bool) :
    ((main_step cfg s ok p).1.dce = s.dce ∧
      (main_step cfg s ok p).1.sessions_made = s.sessions_made ∧
      ((main_step cfg s ok p).1.pc.in_session = true → s.pc.in_session = true)) ∨
    ((main_step cfg s ok p).1.dce = s.sessions_made + 1 ∧
      (main_step cfg s ok p).1.sessions_made = s.sessions_made + 1) ∨
    ((main_step cfg s ok p).1.sessions_made = s.sessions_made ∧
      (main_step cfg s ok p).1.pc = .aborted) := by
  rcases s with ⟨pc, eg, dce, mc, sm, cm⟩
  cases pc <;>
  dsimp only [main_step, checked, wait_enter, wait_return, check_usb_disconnection, check_body,
    after_new_uart] <;>
  (try split) <;> (try split) <;> (try split) <;>
  first
    | exact Or.inl ⟨rfl, rfl, fun _ => rfl⟩
    | exact Or.inl ⟨rfl, rfl, fun h => Bool.noConfusion h⟩
    | exact Or.inr (Or.inl ⟨rfl, rfl⟩)
    | exact Or.inr (Or.inr ⟨rfl, rfl⟩)

/-- In the hot-plug build a statement of the loop leads to a statement of the
loop (or out of `app_main`), and touches no network interface. -/
theorem usb_loop_main (cfg : Config) (s : State) (ok p : Bool) (hu : cfg.serial = .USB)
    (h : s.pc.in_usb_loop = true) :
    (main_step cfg s ok p).1.pc.in_usb_loop = true ∧
      (main_step cfg s ok p).2.all (fun c => !c.is_netif) = true := by
  obtain ⟨serial, dev, fc, pin, simpin, sendmsg, pn, topic, data⟩ := cfg
  simp only at hu
  subst hu
  rcases s with ⟨pc, eg, dce, mc, sm, cm⟩
  cases pc <;>
  dsimp only [main_step, checked, wait_enter, wait_return, check_usb_disconnection, check_body,
    after_new_uart, new_dev_call, wakeup_modem] <;>
  (try split) <;> (try split) <;> (try split) <;>
  first
    | exact ⟨rfl, rfl⟩
    | exact Bool.noConfusion h

/-! ## Sessions that are over -/

theorem fresh_step (cfg : Config) (d : Nat) (s : State) (i : Input) (h : Fresh d s) :
    Fresh d (step cfg s i).1 ∧ ∀ c ∈ (step cfg s i).2, c.session ≠ some d := by
  cases hi : i.is_main
  · have hf := handler_step_fields cfg s i hi
    have hc := (handler_step cfg s i hi).2
    refine ⟨⟨by rw [hf.2.2.1]; exact h.1, ?_⟩, ?_⟩
    · rcases hf.1 with hp | ⟨_, hp⟩
      · rw [hp, hf.2.1]; exact h.2
      · rw [hp]; intro hx; exact Bool.noConfusion hx
    · intro c hcm
      simp [(by_handler_not_session c (hc c hcm)).2.1]
  · cases i with
    | main ok p =>
      by_cases hab : s.pc = .aborted
      · simp only [step, hab, ↓reduceIte]
        exact ⟨h, by simp⟩
      · simp only [step, hab, ↓reduceIte]
        refine ⟨?_, ?_⟩
        · rcases main_step_handles cfg s ok p with ⟨h1, h2, h3⟩ | ⟨h1, h2⟩ | ⟨h1, h2⟩
          · exact ⟨by rw [h2]; exact h.1, fun hx => by rw [h1]; exact h.2 (h3 hx)⟩
          · exact ⟨by rw [h2]; have := h.1; omega, fun _ => by rw [h1]; have := h.1; omega⟩
          · exact ⟨by rw [h1]; exact h.1, fun hx => by rw [h2] at hx; exact Bool.noConfusion hx⟩
        · intro c hc
          rcases main_step_sessions cfg s ok p c hc with h1 | ⟨h1, h2⟩
          · simp [h1]
          · rw [h1]
            have := h.2 h2
            simp only [ne_eq, Option.some.injEq]
            omega
    | ip_event id => simp [Input.is_main] at hi
    | ppp_event id => simp [Input.is_main] at hi
    | mqtt_event c id => simp [Input.is_main] at hi
    | terminal_error e => simp [Input.is_main] at hi

/-- Once session `d` is over, no later call operates on it. -/
theorem fresh_trace (cfg : Config) (d : Nat) (inputs : List Input) (s : State)
    (h : Fresh d s) : ∀ c ∈ trace cfg s inputs, c.session ≠ some d :=
  trace_forall cfg (Fresh d) (fun c => c.session ≠ some d) (fresh_step cfg d) inputs s h

theorem usb_loop_step (cfg : Config) (hu : cfg.serial = .USB) (s : State) (i : Input)
    (h : s.pc.in_usb_loop = true) :
    (step cfg s i).1.pc.in_usb_loop = true ∧ ∀ c ∈ (step cfg s i).2, c.is_netif = false := by
  cases hi : i.is_main
  · have hf := handler_step_fields cfg s i hi
    have hc := (handler_step cfg s i hi).2
    refine ⟨?_, fun c hcm => (by_handler_not_session c (hc c hcm)).2.2.1⟩
    rcases hf.1 with hp | ⟨_, hp⟩
    · rw [hp]; exact h
    · rw [hp]; rfl
  · cases i with
    | main ok p =>
      by_cases hab : s.pc = .aborted
      · simp only [step, hab, ↓reduceIte]
        exact ⟨by rw [hab] at h; simpa [hab] using h, by simp⟩
      · simp only [step, hab, ↓reduceIte]
        have hm := usb_loop_main cfg s ok p hu h
        refine ⟨hm.1, fun c hc => ?_⟩
        have := List.all_eq_true.mp hm.2 c hc
        simpa using this
    | ip_event id => simp [Input.is_main] at hi
    | ppp_event id => simp [Input.is_main] at hi
    | mqtt_event c id => simp [Input.is_main] at hi
    | terminal_error e => simp [Input.is_main] at hi

/-- The hot-plug loop never creates or destroys the network interface. -/
theorem usb_loop_no_netif (cfg : Config) (hu : cfg.serial = .USB) (inputs : List Input)
    (s : State) (h : s.pc.in_usb_loop = true) : ∀ c ∈ trace cfg s inputs, c.is_netif = false :=
  trace_forall cfg (fun s => s.pc.in_usb_loop = true) (fun c => c.is_netif = false)
    (usb_loop_step cfg hu) inputs s h

/-- Splitting an interleaving at its first orchestrator step, from a state that
is not aborted and whose event group exists: the handlers before it move nothing
but the conditions, which only grow. -/
theorem first_main (cfg : Config) (s : State) (bits : EventBits) (hs : List Input)
    (ok p : Bool) (rest : List Input) (hg : s.event_group = some bits)
    (hab : s.pc ≠ .aborted) (hh : mains hs = 0) :
    ∃ bits2, (∀ k, isSet bits k = true → isSet bits2 k = true) ∧
      (∀ c ∈ trace cfg s hs, c.by_handler = true) ∧
      trace cfg s (hs ++ Input.main ok p :: rest) =
        trace cfg s hs ++ ((main_step cfg { s with event_group := some bits2 } ok p).2 ++
          trace cfg (main_step cfg { s with event_group := some bits2 } ok p).1 rest) ∧
      run cfg s (hs ++ Input.main ok p :: rest) =
        run cfg (main_step cfg { s with event_group := some bits2 } ok p).1 rest := by
  obtain ⟨h1, h2, h3, h4, h5, ⟨b2, hb2, hm⟩, h6⟩ := handlers_run cfg hs hh s bits hg
  have hs1 : run cfg s hs = { s with event_group := some b2 } := by
    rcases hr : run cfg s hs with ⟨pc1, eg1, dce1, mc1, sm1, cm1⟩
    rw [hr] at h1 h2 h3 h4 h5 hb2
    simp only at h1 h2 h3 h4 h5 hb2
    subst h1 h2 h3 h4 h5 hb2
    rfl
  refine ⟨b2, hm, h6, ?_, ?_⟩
  · rw [trace_append, hs1]
    simp [trace, step, hab]
  · rw [run_append, hs1]
    simp [run, step, hab]


/-! ## The disconnect path (C1) -/

theorem mem_session_calls (c : Call) (t : List Call) (h : c ∈ session_calls t) : c ∈ t :=
  (List.mem_filter.mp h).1

/-- From the top of the hot-plug loop: the next session call is the creation of
a session, and no call touches a session that is over. -/
theorem phase_new (cfg : Config) (s : State) (bits : EventBits) (inputs : List Input)
    (hpc : s.pc = .L256) (hg : s.event_group = some bits) :
    (mains inputs = 0 → session_calls (trace cfg s inputs) = []) ∧
    (1 ≤ mains inputs →
      ∃ ret rest, session_calls (trace cfg s inputs) = .esp_modem_new_dev_usb ret :: rest) := by
  have hab : s.pc ≠ .aborted := by rw [hpc]; decide
  rcases split_at_main inputs with h0 | ⟨hs, ok, p, rest, rfl, hh, hm⟩
  · refine ⟨fun _ => ?_, fun h => by omega⟩
    exact session_calls_handlers _ (handlers_run cfg inputs h0 s bits hg).2.2.2.2.2.2
  · refine ⟨fun h => by omega, fun _ => ?_⟩
    obtain ⟨b2, _, hby, htr, _⟩ := first_main cfg s bits hs ok p rest hg hab hh
    rw [htr, session_calls_append, session_calls_handlers _ hby, session_calls_append]
    rcases s with ⟨pc, eg, dce, mc, sm, cm⟩
    simp only at hpc
    subst hpc
    cases ok
    · exact ⟨0, _, rfl⟩
    · exact ⟨sm + 1, _, rfl⟩

/-- From the body of `CHECK_USB_DISCONNECTION`: the session is destroyed, then a
new one is created. -/
theorem phase_destroy (cfg : Config) (s : State) (bits : EventBits) (inputs : List Input)
    (hpc : s.pc = .L309_destroy ∨ s.pc = .L326_destroy ∨ s.pc = .L346_destroy)
    (hg : s.event_group = some bits) (hd : s.dce ≤ s.sessions_made) :
    (mains inputs = 0 → session_calls (trace cfg s inputs) = []) ∧
    (mains inputs = 1 → session_calls (trace cfg s inputs) = [.esp_modem_destroy s.dce]) ∧
    (2 ≤ mains inputs → ∃ ret rest, session_calls (trace cfg s inputs) =
      .esp_modem_destroy s.dce :: .esp_modem_new_dev_usb ret :: rest) ∧
    (∀ c ∈ trace cfg s inputs, c.session = some s.dce → c = .esp_modem_destroy s.dce) := by
  have hab : s.pc ≠ .aborted := by rcases hpc with h | h | h <;> rw [h] <;> decide
  rcases split_at_main inputs with h0 | ⟨hs, ok, p, rest, rfl, hh, hm⟩
  · have hby := (handlers_run cfg inputs h0 s bits hg).2.2.2.2.2.2
    refine ⟨fun _ => session_calls_handlers _ hby, fun h => by omega, fun h => by omega, ?_⟩
    intro c hc hcs
    rw [(by_handler_not_session c (hby c hc)).2.1] at hcs
    cases hcs
  · obtain ⟨b2, _, hby, htr, _⟩ := first_main cfg s bits hs ok p rest hg hab hh
    have hstep : main_step cfg { s with event_group := some b2 } ok p =
        ({ s with event_group := some b2, pc := .L256 }, [.esp_modem_destroy s.dce]) := by
      rcases s with ⟨pc, eg, dce, mc, sm, cm⟩
      simp only at hpc
      rcases hpc with h | h | h <;> subst h <;> rfl
    rw [hstep] at htr
    have hnew := phase_new cfg { s with event_group := some b2, pc := .L256 } b2 rest rfl rfl
    have hfresh : Fresh s.dce { s with event_group := some b2, pc := .L256 } :=
      ⟨hd, fun hx => Bool.noConfusion hx⟩
    have hft := fresh_trace cfg s.dce rest _ hfresh
    have hd1 : session_calls [Call.esp_modem_destroy s.dce] = [.esp_modem_destroy s.dce] := rfl
    rw [htr, session_calls_append, session_calls_handlers _ hby, session_calls_append, hd1]
    refine ⟨fun h => by omega, fun h => ?_, fun h => ?_, ?_⟩
    · have h1 : mains rest = 0 := by omega
      rw [hnew.1 h1]; rfl
    · have h1 : 1 ≤ mains rest := by omega
      obtain ⟨ret, rest2, hr⟩ := hnew.2 h1
      exact ⟨ret, rest2, by rw [hr]; rfl⟩
    · intro c hc hcs
      simp only [List.mem_append, List.mem_cons, List.mem_singleton, List.not_mem_nil,
        or_false] at hc
      rcases hc with hc | hc | hc
      · rw [(by_handler_not_session c (hby c hc)).2.1] at hcs
        cases hcs
      · exact hc
      · exact absurd hcs (hft c hc)

/-- From the check after a wait, with the disconnect condition set: the check
enters the body of the macro. -/
theorem phase_check (cfg : Config) (s : State) (inputs : List Input)
    (hu : cfg.serial = .USB) (hpc : s.pc = .L309 ∨ s.pc = .L326 ∨ s.pc = .L346)
    (hD : s.has USB_DISCONNECTED_BIT = true) (hd : s.dce ≤ s.sessions_made) :
    (mains inputs ≤ 1 → session_calls (trace cfg s inputs) = []) ∧
    (mains inputs = 2 → session_calls (trace cfg s inputs) = [.esp_modem_destroy s.dce]) ∧
    (3 ≤ mains inputs → ∃ ret rest, session_calls (trace cfg s inputs) =
      .esp_modem_destroy s.dce :: .esp_modem_new_dev_usb ret :: rest) ∧
    (∀ c ∈ trace cfg s inputs, c.session = some s.dce → c = .esp_modem_destroy s.dce) := by
  have hab : s.pc ≠ .aborted := by rcases hpc with h | h | h <;> rw [h] <;> decide
  obtain ⟨bits, hg, hbit⟩ : ∃ bits, s.event_group = some bits ∧ isSet bits 3 = true := by
    rcases s with ⟨pc, _ | bits, dce, mc, sm, cm⟩
    · exact Bool.noConfusion hD
    · exact ⟨bits, rfl, by simpa [State.has, allBits_BIT, USB_DISCONNECTED_BIT] using hD⟩
  rcases split_at_main inputs with h0 | ⟨hs, ok, p, rest, rfl, hh, hm⟩
  · have hby := (handlers_run cfg inputs h0 s bits hg).2.2.2.2.2.2
    refine ⟨fun _ => session_calls_handlers _ hby, fun h => by omega, fun h => by omega, ?_⟩
    intro c hc hcs
    rw [(by_handler_not_session c (hby c hc)).2.1] at hcs
    cases hcs
  · obtain ⟨b2, hmono, hby, htr, _⟩ := first_main cfg s bits hs ok p rest hg hab hh
    have hb2 : allBits b2 USB_DISCONNECTED_BIT = true := by
      simpa [allBits_BIT, USB_DISCONNECTED_BIT] using hmono 3 hbit
    obtain ⟨pc2, hpc2, hstep⟩ : ∃ pc2,
        (pc2 = .L309_destroy ∨ pc2 = .L326_destroy ∨ pc2 = .L346_destroy) ∧
        main_step cfg { s with event_group := some b2 } ok p =
          ({ s with event_group := some b2, pc := pc2 }, [.xEventGroupGetBits]) := by
      rcases s with ⟨pc, eg, dce, mc, sm, cm⟩
      simp only at hpc
      rcases hpc with h | h | h <;> subst h
      · exact ⟨.L309_destroy, Or.inl rfl,
          by simp [main_step, check_usb_disconnection, hu, hb2]⟩
      · exact ⟨.L326_destroy, Or.inr (Or.inl rfl),
          by simp [main_step, check_usb_disconnection, hu, hb2]⟩
      · exact ⟨.L346_destroy, Or.inr (Or.inr rfl),
          by simp [main_step, check_usb_disconnection, hu, hb2]⟩
    rw [hstep] at htr
    have hdes := phase_destroy cfg { s with event_group := some b2, pc := pc2 } b2 rest hpc2 rfl hd
    rw [htr, session_calls_append, session_calls_handlers _ hby, session_calls_append]
    have hget : session_calls [Call.xEventGroupGetBits] = [] := rfl
    rw [hget]
    refine ⟨fun h => ?_, fun h => ?_, fun h => ?_, ?_⟩
    · simpa using hdes.1 (by omega)
    · simpa using hdes.2.1 (by omega)
    · simpa using hdes.2.2.1 (by omega)
    · intro c hc hcs
      simp only [List.mem_append, List.mem_cons, List.mem_singleton, List.not_mem_nil,
        or_false] at hc
      rcases hc with hc | hc | hc
      · rw [(by_handler_not_session c (hby c hc)).2.1] at hcs
        cases hcs
      · rw [hc] at hcs; cases hcs
      · exact hdes.2.2.2 c hc hcs

/-- C1 (hot-plug build): at the check after any of the three waits, when
DEVICE_DISCONNECTED is set, whatever the handlers do meanwhile, the only
operation the orchestrator still issues on the current session is its
destruction, its next session call after that is the creation of a new session
at the top of the loop, and it neither creates nor destroys the network
interface.  The check takes one orchestrator step, the destruction a second,
the creation a third. -/
theorem disconnect_restarts_session (cfg : Config) (before after : List Input)
    (hu : cfg.serial = .USB)
    (hpc : (run cfg .init before).pc = .L309 ∨ (run cfg .init before).pc = .L326 ∨
      (run cfg .init before).pc = .L346)
    (hD : (run cfg .init before).has USB_DISCONNECTED_BIT = true) :
    (mains after ≤ 1 → session_calls (trace cfg (run cfg .init before) after) = []) ∧
    (mains after = 2 → session_calls (trace cfg (run cfg .init before) after) =
      [.esp_modem_destroy (run cfg .init before).dce]) ∧
    (3 ≤ mains after → ∃ ret rest, session_calls (trace cfg (run cfg .init before) after) =
      .esp_modem_destroy (run cfg .init before).dce :: .esp_modem_new_dev_usb ret :: rest) ∧
    (∀ c ∈ trace cfg (run cfg .init before) after,
      c.session = some (run cfg .init before).dce →
        c = .esp_modem_destroy (run cfg .init before).dce) ∧
    (∀ c ∈ trace cfg (run cfg .init before) after, c.is_netif = false) := by
  have hinv := stateInv_reachable cfg before
  have hph := phase_check cfg (run cfg .init before) after hu hpc hD hinv.2.2.1.1
  refine ⟨hph.1, hph.2.1, hph.2.2.1, hph.2.2.2, ?_⟩
  apply usb_loop_no_netif cfg hu
  rcases hpc with h | h | h <;> rw [h] <;> rfl

/-- Witness for C1: the device goes while the
orchestrator waits for broker data; three more orchestrator steps destroy the
session and create the next one. -/
theorem disconnect_restarts_session_witness :
    (run cfgUSB .init usbToDataCheck).pc = .L326 ∧
    (run cfgUSB .init usbToDataCheck).has USB_DISCONNECTED_BIT = true ∧
    ∃ ret rest,
      session_calls (trace cfgUSB (run cfgUSB .init usbToDataCheck) [okStep, okStep, okStep]) =
        .esp_modem_destroy (run cfgUSB .init usbToDataCheck).dce ::
          .esp_modem_new_dev_usb ret :: rest :=
  ⟨by decide, by decide,
    (disconnect_restarts_session cfgUSB usbToDataCheck [okStep, okStep, okStep] rfl
      (Or.inr (Or.inl (by decide))) (by decide)).2.2.1 (by decide)⟩


/-! ## Failed session operations (C2) -/

/-- After `app_main` has returned or aborted, only handlers make calls. -/
theorem ended_step (cfg : Config) (s : State) (i : Input)
    (h : s.pc = .returned ∨ s.pc = .aborted) :
    ((step cfg s i).1.pc = .returned ∨ (step cfg s i).1.pc = .aborted) ∧
      ∀ c ∈ (step cfg s i).2, c.by_handler = true := by
  cases hi : i.is_main
  · refine ⟨?_, (handler_step cfg s i hi).2⟩
    rcases (handler_step_fields cfg s i hi).1 with hp | ⟨_, hp⟩
    · rw [hp]; exact h
    · exact Or.inr hp
  · cases i with
    | main ok p =>
      rcases s with ⟨pc, eg, dce, mc, sm, cm⟩
      simp only at h
      rcases h with h | h <;> subst h <;> exact ⟨by simp [step, main_step], by simp [step, main_step]⟩
    | ip_event id => simp [Input.is_main] at hi
    | ppp_event id => simp [Input.is_main] at hi
    | mqtt_event c id => simp [Input.is_main] at hi
    | terminal_error e => simp [Input.is_main] at hi

theorem ended_run (cfg : Config) (inputs : List Input) (s : State)
    (h : s.pc = .returned ∨ s.pc = .aborted) :
    ((run cfg s inputs).pc = .returned ∨ (run cfg s inputs).pc = .aborted) ∧
      orchestrator_calls (trace cfg s inputs) = [] := by
  refine ⟨run_invariant cfg (fun s => s.pc = .returned ∨ s.pc = .aborted)
    (fun s i hs => (ended_step cfg s i hs).1) inputs s h, ?_⟩
  have hall := trace_forall cfg (fun s => s.pc = .returned ∨ s.pc = .aborted)
    (fun c => c.by_handler = true) (ended_step cfg) inputs s h
  simp only [orchestrator_calls, List.filter_eq_nil_iff]
  intro c hc
  simp [hall c hc]

/-- Once `app_main` has returned it stays so: the handlers that still run find
the event group in place. -/
theorem returned_run (cfg : Config) (inputs : List Input) (s : State)
    (h : s.pc = .returned) (hg : s.event_group ≠ none) :
    (run cfg s inputs).pc = .returned := by
  have hinv := run_invariant cfg (fun s => s.pc = .returned ∧ s.event_group ≠ none) ?_ inputs s
    ⟨h, hg⟩
  · exact hinv.1
  · intro s i ⟨h1, h2⟩
    cases hi : i.is_main
    · have hf := handler_step_fields cfg s i hi
      cases hb : s.event_group with
      | none => exact absurd hb h2
      | some bits =>
        obtain ⟨b2, hb2, _⟩ := hf.2.2.2.2.2 bits hb
        refine ⟨?_, by rw [hb2]; exact fun hx => Option.noConfusion hx⟩
        rcases hf.1 with hp | ⟨hp, _⟩
        · rw [hp]; exact h1
        · exact absurd hp h2
    · cases i with
      | main ok p =>
        rcases s with ⟨pc, eg, dce, mc, sm, cm⟩
        simp only at h1
        subst h1
        exact ⟨rfl, h2⟩
      | ip_event id => simp [Input.is_main] at hi
      | ppp_event id => simp [Input.is_main] at hi
      | mqtt_event c id => simp [Input.is_main] at hi
      | terminal_error e => simp [Input.is_main] at hi

/-- A checked operation that fails: the call is made and `app_main` is left, by
`abort()` after `esp_modem_set_pin` and by `return` after every other checked
operation; nothing else changes. -/
theorem checked_op_fails (cfg : Config) (s : State) (c : Call) (p : Bool)
    (hc : checked_op cfg s = some c) :
    main_step cfg s false p =
      ({ s with pc := if c.is_set_pin = true then .aborted else .returned }, [c]) ∧
    c.by_handler = false ∧ c.is_destroy = false ∧ s.pc ≠ .aborted := by
  rcases s with ⟨pc, eg, dce, mc, sm, cm⟩
  cases pc <;>
    first
      | exact Option.noConfusion hc
      | (injection hc with hc
         subst hc
         exact ⟨rfl, rfl, rfl, fun h => Pc.noConfusion h⟩)

/-- Which session operations are checked: every operation `app_main` issues on a
session is a checked one, except the read of the PIN status, the registration of
the error callback and the destroy. -/
theorem session_op_checked (cfg : Config) (s : State) (ok p : Bool) :
    ∀ c ∈ (main_step cfg s ok p).2, c.session ≠ none →
      checked_op cfg s = some c ∨ c = .esp_modem_read_pin s.dce ∨
        c = .esp_modem_set_error_cb s.dce ∨ c = .esp_modem_destroy s.dce := by
  rcases s with ⟨pc, eg, dce, mc, sm, cm⟩
  cases pc <;>
  dsimp only [main_step, checked, wait_enter, wait_return, check_usb_disconnection, check_body,
    after_new_uart, new_dev_call, wakeup_modem] <;>
  (try split) <;> (try split) <;> (try split) <;>
  simp only [List.mem_singleton, forall_eq, List.mem_cons, forall_eq_or_imp, List.not_mem_nil,
    IsEmpty.forall_iff, implies_true, and_true] <;>
  first
    | exact fun h => absurd rfl h
    | exact fun _ => Or.inl rfl
    | exact fun _ => Or.inr (Or.inl rfl)
    | exact fun _ => Or.inr (Or.inr (Or.inl rfl))
    | exact fun _ => Or.inr (Or.inr (Or.inr rfl))
    | exact fun _ => Or.inr (Or.inl trivial)
    | exact fun _ => Or.inr (Or.inr (Or.inl trivial))
    | exact fun _ => Or.inr (Or.inr (Or.inr trivial))
    | exact ⟨fun h => absurd rfl h, fun h => absurd rfl h, fun h => absurd rfl h,
        fun h => absurd rfl h, fun h => absurd rfl h, fun h => absurd rfl h,
        fun h => absurd rfl h, fun h => absurd rfl h⟩

/-- C2, as the code has it: when a session operation whose result `app_main`
checks returns a failure (the flow-control setting, setPin, getSignalQuality, the
messaging operations, setMode(DATA), setMode(COMMAND), getIdentity), the run ends
at that call: by `abort()` when the operation is setPin, by `return` for every
other one.  The failing call is the last call the orchestrator makes, nothing
but the program point changes, and whatever steps follow, the run stays ended:
aborted after setPin, returned after the others (as long as the event group
exists; a handler that finds it missing aborts).  A failure of readPinStatus is
not checked: the PIN phase is skipped, the orchestrator is at line 281, and the
next session operation is getSignalQuality, whatever the handlers do in
between.  The checked operations are all the operations issued on a session
other than readPinStatus, the registration of the error callback and the
destroy. -/
theorem checked_failure_ends_run (cfg : Config) (s : State) (p : Bool) :
    (∀ c inputs, checked_op cfg s = some c →
      step cfg s (.main false p) =
        ({ s with pc := if c.is_set_pin = true then .aborted else .returned }, [c]) ∧
      orchestrator_calls (trace cfg s (.main false p :: inputs)) = [c] ∧
      ((run cfg s (.main false p :: inputs)).pc = .returned ∨
        (run cfg s (.main false p :: inputs)).pc = .aborted) ∧
      (c.is_set_pin = true → (run cfg s (.main false p :: inputs)).pc = .aborted) ∧
      (c.is_set_pin = false → s.event_group ≠ none →
        (run cfg s (.main false p :: inputs)).pc = .returned)) ∧
    (s.pc = .L271 →
      checked_op cfg s = none ∧
      step cfg s (.main false p) = ({ s with pc := .L281 }, [.esp_modem_read_pin s.dce]) ∧
      (∀ ok2 p2, trace cfg s [.main false p, .main ok2 p2] =
        [.esp_modem_read_pin s.dce, .esp_modem_get_signal_quality s.dce]) ∧
      (∀ hs ok2 p2 rest, mains hs = 0 → s.event_group ≠ none →
        ∃ tl, session_calls (trace cfg s (.main false p :: (hs ++ .main ok2 p2 :: rest))) =
          .esp_modem_read_pin s.dce :: .esp_modem_get_signal_quality s.dce :: tl)) ∧
    (∀ ok, ∀ c ∈ (main_step cfg s ok p).2, c.session ≠ none →
      checked_op cfg s = some c ∨ c = .esp_modem_read_pin s.dce ∨
        c = .esp_modem_set_error_cb s.dce ∨ c = .esp_modem_destroy s.dce) := by
  refine ⟨?_, ?_, fun ok => session_op_checked cfg s ok p⟩
  · intro c inputs hc
    obtain ⟨h1, h2, _, h3⟩ := checked_op_fails cfg s c p hc
    have hstep : step cfg s (.main false p) =
        ({ s with pc := if c.is_set_pin = true then .aborted else .returned }, [c]) := by
      simp only [step, h3, ↓reduceIte]
      exact h1
    have h4 : (step cfg s (.main false p)).1.pc = .returned ∨
        (step cfg s (.main false p)).1.pc = .aborted := by
      rw [hstep]
      cases c.is_set_pin
      · exact Or.inl rfl
      · exact Or.inr rfl
    have hend := ended_run cfg inputs (step cfg s (.main false p)).1 h4
    refine ⟨hstep, ?_, hend.1, ?_, ?_⟩
    · have ht : trace cfg s (.main false p :: inputs) =
          (step cfg s (.main false p)).2 ++ trace cfg (step cfg s (.main false p)).1 inputs := rfl
      rw [ht]
      simp only [orchestrator_calls] at hend ⊢
      rw [List.filter_append, hend.2, hstep]
      simp [h2]
    · intro hp
      show (run cfg (step cfg s (.main false p)).1 inputs).pc = .aborted
      have hab : (step cfg s (.main false p)).1.pc = .aborted := by rw [hstep, hp]; rfl
      rw [(aborted_run cfg inputs _ hab).1]
      exact hab
    · intro hp hg
      show (run cfg (step cfg s (.main false p)).1 inputs).pc = .returned
      apply returned_run
      · rw [hstep, hp]; rfl
      · rw [hstep]; exact hg
  · intro hpc
    rcases s with ⟨pc, eg, dce, mc, sm, cm⟩
    simp only at hpc
    subst hpc
    refine ⟨rfl, rfl, fun ok2 p2 => by cases ok2 <;> rfl, ?_⟩
    intro hs ok2 p2 rest hh hg
    cases eg with
    | none => exact absurd rfl hg
    | some bits =>
      have ht : trace cfg ⟨.L271, some bits, dce, mc, sm, cm⟩
            (.main false p :: (hs ++ .main ok2 p2 :: rest)) =
          [.esp_modem_read_pin dce] ++
            trace cfg ⟨.L281, some bits, dce, mc, sm, cm⟩ (hs ++ .main ok2 p2 :: rest) := rfl
      obtain ⟨b2, _, hhc, htr, _⟩ := first_main cfg ⟨.L281, some bits, dce, mc, sm, cm⟩ bits hs
        ok2 p2 rest rfl (fun h => Pc.noConfusion h) hh
      rw [ht, htr]
      simp only [session_calls_append, session_calls_handlers _ hhc, List.nil_append]
      cases ok2 <;> exact ⟨_, rfl⟩

/-- Witness for C2 as amended: getSignalQuality fails in the UART
run whose PIN was already verified, and `app_main` returns. -/
theorem checked_failure_ends_run_witness :
    checked_op cfgUART (run cfgUART .init (uartToPin ++ [okStep])) =
      some (.esp_modem_get_signal_quality 1) ∧
    step cfgUART (run cfgUART .init (uartToPin ++ [okStep])) (.main false false) =
      ({ run cfgUART .init (uartToPin ++ [okStep]) with pc := .returned },
        [.esp_modem_get_signal_quality 1]) :=
  ⟨by decide,
    ((checked_failure_ends_run cfgUART (run cfgUART .init (uartToPin ++ [okStep])) false).1
      (.esp_modem_get_signal_quality 1) [okStep, okStep] (by decide)).1⟩

/-- C2 as stated fails for readPinStatus: in the UART run that reaches line 271,
the read of the PIN status returns a failure, and yet the orchestrator goes on to
issue getSignalQuality and advances to the mode switch of line 301. -/
theorem failed_pin_read_goes_on :
    (run cfgUART .init uartToPin).pc = .L271 ∧
    trace cfgUART (run cfgUART .init uartToPin) [.main false false, okStep] =
      [.esp_modem_read_pin 1, .esp_modem_get_signal_quality 1] ∧
    (run cfgUART .init (uartToPin ++ [.main false false, okStep])).pc = .L301 := by
  decide


/-! ## The PIN phase (C6) -/

/-- Inside a session `app_main` only moves forward; a session is entered by a
creation only. -/
theorem main_step_stage (cfg : Config) (s : State) (ok p : Bool)
    (h : (main_step cfg s ok p).1.pc.in_session = true) :
    (s.pc.in_session = true ∧ (main_step cfg s ok p).1.dce = s.dce ∧
      (main_step cfg s ok p).1.sessions_made = s.sessions_made ∧
      s.pc.stage ≤ (main_step cfg s ok p).1.pc.stage) ∨
    ((main_step cfg s ok p).1.dce = s.sessions_made + 1 ∧
      (main_step cfg s ok p).1.sessions_made = s.sessions_made + 1 ∧
      s.pc.in_session = false) := by
  rcases s with ⟨pc, eg, dce, mc, sm, cm⟩
  revert h
  cases pc <;>
  dsimp only [main_step, checked, wait_enter, wait_return, check_usb_disconnection, check_body,
    after_new_uart] <;>
  (try split) <;> (try split) <;> (try split) <;>
  intro h <;>
  first
    | exact Bool.noConfusion h
    | exact Or.inl ⟨rfl, rfl, rfl, Nat.le_of_ble_eq_true rfl⟩
    | exact Or.inr ⟨rfl, rfl, rfl⟩

theorem main_step_pin_mode_all (cfg : Config) (s : State) (ok p : Bool) :
    (main_step cfg s ok p).2.all (fun c =>
      (!c.is_set_pin || decide (s.pc = .L272)) &&
      (!c.is_set_mode || decide (s.pc = .L301 ∨ s.pc = .L329))) = true := by
  rcases s with ⟨pc, eg, dce, mc, sm, cm⟩
  cases pc <;>
  dsimp only [main_step, checked, wait_enter, wait_return, check_usb_disconnection, check_body,
    after_new_uart, new_dev_call, wakeup_modem] <;>
  (try split) <;> (try split) <;> (try split) <;>
  rfl

/-- Where `app_main` sets the PIN and switches the mode. -/
theorem main_step_pin_mode (cfg : Config) (s : State) (ok p : Bool) :
    ∀ c ∈ (main_step cfg s ok p).2,
      (c.is_set_pin = true → s.pc = .L272) ∧
      (c.is_set_mode = true → s.pc = .L301 ∨ s.pc = .L329) := by
  intro c hc
  have h := List.all_eq_true.mp (main_step_pin_mode_all cfg s ok p) c hc
  simp only [Bool.and_eq_true, Bool.or_eq_true, decide_eq_true_eq] at h
  refine ⟨fun hx => ?_, fun hx => ?_⟩
  · rcases h.1 with h1 | h1
    · rw [hx] at h1; cases h1
    · exact h1
  · rcases h.2 with h1 | h1
    · rw [hx] at h1; cases h1
    · exact h1

theorem main_step_sessions_made (cfg : Config) (s : State) (ok p : Bool) :
    s.sessions_made ≤ (main_step cfg s ok p).1.sessions_made := by
  rcases main_step_handles cfg s ok p with ⟨_, h, _⟩ | ⟨_, h⟩ | ⟨h, _⟩ <;> omega

theorem by_handler_not_pin (c : Call) (h : c.by_handler = true) :
    c.is_set_pin = false ∧ c.is_set_mode = false := by
  cases c <;> first | exact ⟨rfl, rfl⟩ | exact Bool.noConfusion h

theorem preDataInv_step (cfg : Config) (s : State) (t : List Call) (i : Input)
    (h : PreDataInv cfg s t) : PreDataInv cfg (step cfg s i).1 (t ++ (step cfg s i).2) := by
  obtain ⟨hinv, hb, hm⟩ := h
  refine ⟨stateInv_step cfg s i hinv, ?_, ?_⟩
  · cases hi : i.is_main
    · have hf := handler_step_fields cfg s i hi
      have hc := (handler_step cfg s i hi).2
      intro c hcm d hcs
      rw [hf.2.2.1]
      rcases List.mem_append.mp hcm with hcm | hcm
      · exact hb c hcm d hcs
      · rw [(by_handler_not_session c (hc c hcm)).2.1] at hcs; cases hcs
    · cases i with
      | main ok p =>
        by_cases hab : s.pc = .aborted
        · simp only [step, hab, ↓reduceIte, List.append_nil]; exact hb
        · simp only [step, hab, ↓reduceIte]
          intro c hcm d hcs
          have hle := main_step_sessions_made cfg s ok p
          rcases List.mem_append.mp hcm with hcm | hcm
          · exact le_trans (hb c hcm d hcs) hle
          · rcases main_step_sessions cfg s ok p c hcm with h1 | ⟨h1, h2⟩
            · rw [h1] at hcs; cases hcs
            · rw [h1] at hcs
              injection hcs with hcs
              have := (hinv.2.2.1.2 h2).1
              omega
      | ip_event id => simp [Input.is_main] at hi
      | ppp_event id => simp [Input.is_main] at hi
      | mqtt_event c id => simp [Input.is_main] at hi
      | terminal_error e => simp [Input.is_main] at hi
  · cases hi : i.is_main
    · have hf := handler_step_fields cfg s i hi
      have hc := (handler_step cfg s i hi).2
      intro hin hst c hcm hcs
      rw [hf.2.1]
      rcases hf.1 with hp | ⟨_, hp⟩
      · rw [hp] at hin hst
        rcases List.mem_append.mp hcm with hcm | hcm
        · exact hm hin hst c hcm hcs
        · rw [(by_handler_not_pin c (hc c hcm)).2] at hcs; cases hcs
      · rw [hp] at hin; exact Bool.noConfusion hin
    · cases i with
      | main ok p =>
        by_cases hab : s.pc = .aborted
        · simp only [step, hab, ↓reduceIte, List.append_nil]
          intro hin; exact Bool.noConfusion hin
        · simp only [step, hab, ↓reduceIte]
          intro hin hst c hcm hcs
          rcases main_step_stage cfg s ok p hin with ⟨h1, h2, h3, h4⟩ | ⟨h2, h3, h1⟩
          · rw [h2]
            rcases List.mem_append.mp hcm with hcm | hcm
            · exact hm h1 (le_trans h4 hst) c hcm hcs
            · have h11 : Pc.stage .L301 = 11 := rfl
              have h22 : Pc.stage .L329 = 22 := rfl
              rcases (main_step_pin_mode cfg s ok p c hcm).2 hcs with hpc | hpc <;>
                rw [hpc] at h4 <;> omega
          · rw [h2]
            intro hx
            rcases List.mem_append.mp hcm with hcm | hcm
            · have := hb c hcm _ hx
              omega
            · rcases main_step_sessions cfg s ok p c hcm with h5 | ⟨_, h5⟩
              · rw [h5] at hx; cases hx
              · rw [h1] at h5; exact Bool.noConfusion h5
      | ip_event id => simp [Input.is_main] at hi
      | ppp_event id => simp [Input.is_main] at hi
      | mqtt_event c id => simp [Input.is_main] at hi
      | terminal_error e => simp [Input.is_main] at hi

theorem preDataInv_reachable (cfg : Config) (inputs : List Input) :
    PreDataInv cfg (run cfg .init inputs) (trace cfg .init inputs) := by
  have h := trace_invariant cfg (PreDataInv cfg) (preDataInv_step cfg) inputs .init []
    ⟨stateInv_init cfg, by simp, by simp⟩
  simpa using h

theorem postPin_step (cfg : Config) (d : Nat) (s : State) (i : Input) (h : PostPin d s) :
    PostPin d (step cfg s i).1 ∧
      ∀ c ∈ (step cfg s i).2, c.is_set_pin = true → c.session ≠ some d := by
  cases hi : i.is_main
  · have hf := handler_step_fields cfg s i hi
    have hc := (handler_step cfg s i hi).2
    refine ⟨⟨by rw [hf.2.2.1]; exact h.1, ?_⟩, ?_⟩
    · rcases hf.1 with hp | ⟨_, hp⟩
      · rw [hp, hf.2.1]; exact h.2
      · rw [hp]; intro hx; exact Bool.noConfusion hx
    · intro c hcm hcs
      rw [(by_handler_not_pin c (hc c hcm)).1] at hcs; cases hcs
  · cases i with
    | main ok p =>
      by_cases hab : s.pc = .aborted
      · simp only [step, hab, ↓reduceIte]
        exact ⟨h, by simp⟩
      · simp only [step, hab, ↓reduceIte]
        refine ⟨⟨le_trans h.1 (main_step_sessions_made cfg s ok p), ?_⟩, ?_⟩
        · intro hin hst
          rcases main_step_stage cfg s ok p hin with ⟨h1, h2, h3, h4⟩ | ⟨h2, h3, h1⟩
          · rw [h2]; exact h.2 h1 (le_trans h4 hst)
          · rw [h2]; have := h.1; omega
        · intro c hc hcs
          have hpc := (main_step_pin_mode cfg s ok p c hc).1 hcs
          rcases main_step_sessions cfg s ok p c hc with h1 | ⟨h1, h2⟩
          · simp [h1]
          · rw [h1]
            have := h.2 h2 (by rw [hpc]; decide)
            simp only [ne_eq, Option.some.injEq]
            omega
    | ip_event id => simp [Input.is_main] at hi
    | ppp_event id => simp [Input.is_main] at hi
    | mqtt_event c id => simp [Input.is_main] at hi
    | terminal_error e => simp [Input.is_main] at hi

theorem postPin_trace (cfg : Config) (d : Nat) (inputs : List Input) (s : State)
    (h : PostPin d s) : ∀ c ∈ trace cfg s inputs, c.is_set_pin = true → c.session ≠ some d :=
  trace_forall cfg (PostPin d) (fun c => c.is_set_pin = true → c.session ≠ some d)
    (postPin_step cfg d) inputs s h


/-- C6: with a PIN configured.  Take any execution that has reached line 271,
where the PIN status is read.  (a) If the read succeeds reporting the PIN not
verified and setPin then fails, whatever the handlers do in between, the run is
aborted, its session calls from the read on are exactly readPinStatus and setPin,
and setMode was never called on that session, before or after.  (b) If the read
reports the PIN verified, setPin is never called on that session and the next
session operation is getSignalQuality. -/
theorem pin_phase (cfg : Config) (before : List Input)
    (hpc : (run cfg .init before).pc = .L271) :
    cfg.need_sim_pin = true ∧
    (∀ hs p rest, mains hs = 0 →
      (run cfg .init (before ++ .main true false :: (hs ++ .main false p :: rest))).pc
        = .aborted ∧
      session_calls (trace cfg (run cfg .init before)
          (.main true false :: (hs ++ .main false p :: rest))) =
        [.esp_modem_read_pin (run cfg .init before).dce,
          .esp_modem_set_pin (run cfg .init before).dce cfg.sim_pin] ∧
      ∀ c ∈ trace cfg .init (before ++ .main true false :: (hs ++ .main false p :: rest)),
        c.is_set_mode = true → c.session ≠ some (run cfg .init before).dce) ∧
    (∀ ok rest,
      (∀ c ∈ trace cfg (run cfg .init before) (.main ok true :: rest),
        c.is_set_pin = true → c.session ≠ some (run cfg .init before).dce) ∧
      (1 ≤ mains rest → ∃ tl,
        session_calls (trace cfg (run cfg .init before) (.main ok true :: rest)) =
          .esp_modem_read_pin (run cfg .init before).dce ::
            .esp_modem_get_signal_quality (run cfg .init before).dce :: tl)) := by
  have hpre := preDataInv_reachable cfg before
  generalize htr0 : trace cfg .init before = t0 at hpre
  have happ : ∀ xs, trace cfg .init (before ++ xs) =
      t0 ++ trace cfg (run cfg .init before) xs := by
    intro xs; rw [trace_append, htr0]
  have hrun : ∀ xs, run cfg .init (before ++ xs) = run cfg (run cfg .init before) xs :=
    fun xs => run_append cfg before xs .init
  generalize run cfg .init before = s at hpc hpre happ hrun
  obtain ⟨hinv, hb, hm⟩ := hpre
  obtain ⟨bits, hg⟩ : ∃ bits, s.event_group = some bits := by
    have := hinv.2.2.2.2 (by rw [hpc]; rfl)
    cases hgg : s.event_group with
    | none => exact absurd hgg this
    | some b => exact ⟨b, rfl⟩
  have hd : s.dce ≤ s.sessions_made := hinv.2.2.1.1
  rcases s with ⟨pc, eg, dce, mc, sm, cm⟩
  simp only at hpc hg hd
  subst hpc hg
  refine ⟨hinv.2.2.2.1 (Or.inl rfl), ?_, ?_⟩
  · intro hs p rest hh
    obtain ⟨b2, _, hby, htr, hr⟩ := first_main cfg
      ⟨.L272, some bits, dce, mc, sm, cm⟩ bits hs false p rest rfl
      (fun h => Pc.noConfusion h) hh
    have hstep : main_step cfg ⟨.L272, some b2, dce, mc, sm, cm⟩ false p =
        (⟨.aborted, some b2, dce, mc, sm, cm⟩, [.esp_modem_set_pin dce cfg.sim_pin]) := rfl
    have hab := aborted_run cfg rest ⟨.aborted, some b2, dce, mc, sm, cm⟩ rfl
    simp only [hstep, hab.1, hab.2, List.append_nil] at htr hr
    have ht1 : trace cfg ⟨.L271, some bits, dce, mc, sm, cm⟩
        (.main true false :: (hs ++ .main false p :: rest)) =
        .esp_modem_read_pin dce ::
          (trace cfg ⟨.L272, some bits, dce, mc, sm, cm⟩ hs ++
            [.esp_modem_set_pin dce cfg.sim_pin]) := by
      rw [← htr]; rfl
    refine ⟨?_, ?_, ?_⟩
    · rw [hrun]
      show (run cfg ⟨.L272, some bits, dce, mc, sm, cm⟩ (hs ++ .main false p :: rest)).pc = _
      rw [hr]
    · rw [ht1]
      have : session_calls (.esp_modem_read_pin dce ::
          (trace cfg ⟨.L272, some bits, dce, mc, sm, cm⟩ hs ++
            [.esp_modem_set_pin dce cfg.sim_pin])) =
          session_calls [.esp_modem_read_pin dce] ++
            (session_calls (trace cfg ⟨.L272, some bits, dce, mc, sm, cm⟩ hs) ++
              session_calls [.esp_modem_set_pin dce cfg.sim_pin]) := by
        rw [← session_calls_append, ← session_calls_append]; rfl
      rw [this, session_calls_handlers _ hby]
      rfl
    · intro c hc hcs
      rw [happ, ht1] at hc
      simp only [List.mem_append, List.mem_cons, List.mem_singleton, List.not_mem_nil,
        or_false] at hc
      rcases hc with hc | hc | hc | hc
      · exact hm rfl (Nat.le_of_ble_eq_true rfl) c hc hcs
      · rw [hc] at hcs; cases hcs
      · rw [(by_handler_not_pin c (hby c hc)).2] at hcs; cases hcs
      · rw [hc] at hcs; cases hcs
  · intro ok rest
    have ht1 : trace cfg ⟨.L271, some bits, dce, mc, sm, cm⟩ (.main ok true :: rest) =
        .esp_modem_read_pin dce :: trace cfg ⟨.L281, some bits, dce, mc, sm, cm⟩ rest := by
      cases ok <;> rfl
    refine ⟨?_, ?_⟩
    · intro c hc hcs
      rw [ht1] at hc
      rcases List.mem_cons.mp hc with hc | hc
      · rw [hc] at hcs; cases hcs
      · exact postPin_trace cfg dce rest ⟨.L281, some bits, dce, mc, sm, cm⟩
          ⟨hd, fun _ hx => absurd (Nat.ble_eq_true_of_le hx) (fun h => Bool.noConfusion h)⟩
          c hc hcs
    · intro h1
      rcases split_at_main rest with h0 | ⟨hs, ok2, p2, rest2, rfl, hh, _⟩
      · omega
      · obtain ⟨b2, _, hby, htr, _⟩ := first_main cfg
          ⟨.L281, some bits, dce, mc, sm, cm⟩ bits hs ok2 p2 rest2 rfl
          (fun h => Pc.noConfusion h) hh
        have hcall : ∃ s2, main_step cfg ⟨.L281, some b2, dce, mc, sm, cm⟩ ok2 p2 =
            (s2, [.esp_modem_get_signal_quality dce]) := by
          cases ok2
          · exact ⟨_, rfl⟩
          · exact ⟨_, rfl⟩
        obtain ⟨s2, hs2⟩ := hcall
        rw [hs2] at htr
        rw [ht1, htr]
        refine ⟨session_calls (trace cfg s2 rest2), ?_⟩
        have : session_calls (.esp_modem_read_pin dce ::
            (trace cfg ⟨.L281, some bits, dce, mc, sm, cm⟩ hs ++
              ([.esp_modem_get_signal_quality dce] ++ trace cfg s2 rest2))) =
            session_calls [.esp_modem_read_pin dce] ++
              (session_calls (trace cfg ⟨.L281, some bits, dce, mc, sm, cm⟩ hs) ++
                (session_calls [.esp_modem_get_signal_quality dce] ++
                  session_calls (trace cfg s2 rest2))) := by
          rw [← session_calls_append, ← session_calls_append, ← session_calls_append]; rfl
        rw [this, session_calls_handlers _ hby]
        rfl

/-- Witness for C6: the UART run reaches line 271; the read reports the
PIN not verified and setPin fails. -/
theorem pin_phase_witness :
    (run cfgUART .init uartToPin).pc = .L271 ∧
    (run cfgUART .init (uartToPin ++ .main true false :: ([] ++ .main false false :: []))).pc
      = .aborted :=
  ⟨by decide, ((pin_phase cfgUART uartToPin (by decide)).2.1 [] false [] rfl).1⟩

/-! ## One live session (C5) -/

/-- What one statement of `app_main` does to the sessions: nothing (the calls it
makes are no session calls), one operation on the live session, its destruction,
the creation of a session, or a failed creation.  The one statement that could
leave a session without destroying it is the check of line 346 finding the
disconnect condition clear. -/
theorem main_step_kind (cfg : Config) (s : State) (ok p : Bool) :
    ((main_step cfg s ok p).2.all (fun c => c.session.isNone && c.created.isNone) = true ∧
      (main_step cfg s ok p).1.dce = s.dce ∧
      (main_step cfg s ok p).1.sessions_made = s.sessions_made ∧
      ((main_step cfg s ok p).1.pc.in_session = s.pc.in_session ∨
        (main_step cfg s ok p).1.pc = .aborted ∨
        (s.pc = .L346 ∧ (cfg.serial = .UART ∨ s.has USB_DISCONNECTED_BIT = false)))) ∨
    (∃ c, (main_step cfg s ok p).2 = [c] ∧ c.session = some s.dce ∧ c.created = none ∧
      c.is_destroy = false ∧ s.pc.in_session = true ∧
      (main_step cfg s ok p).1.dce = s.dce ∧
      (main_step cfg s ok p).1.sessions_made = s.sessions_made ∧
      ((main_step cfg s ok p).1.pc.in_session = true ∨
        (main_step cfg s ok p).1.pc = .aborted)) ∨
    ((main_step cfg s ok p).2 = [.esp_modem_destroy s.dce] ∧ s.pc.in_session = true ∧
      (main_step cfg s ok p).1.pc.in_session = false ∧
      (main_step cfg s ok p).1.pc ≠ .aborted ∧
      (main_step cfg s ok p).1.dce = s.dce ∧
      (main_step cfg s ok p).1.sessions_made = s.sessions_made) ∨
    (∃ c, (main_step cfg s ok p).2 = [c] ∧ c.created = some (s.sessions_made + 1) ∧
      c.session = none ∧ s.pc.in_session = false ∧
      (main_step cfg s ok p).1.pc.in_session = true ∧
      (main_step cfg s ok p).1.dce = s.sessions_made + 1 ∧
      (main_step cfg s ok p).1.sessions_made = s.sessions_made + 1) ∨
    (∃ c, (main_step cfg s ok p).2 = [c] ∧ c.created = some 0 ∧ c.session = none ∧
      s.pc.in_session = false ∧ (main_step cfg s ok p).1.pc = .aborted ∧
      (main_step cfg s ok p).1.sessions_made = s.sessions_made) := by
  rcases s with ⟨pc, eg, dce, mc, sm, cm⟩
  cases pc <;>
  dsimp only [main_step, checked, wait_enter, wait_return, check_usb_disconnection, check_body,
    after_new_uart, new_dev_call, wakeup_modem] <;>
  (try split) <;> (try split) <;> (try split) <;>
  first
    | exact Or.inl ⟨rfl, rfl, rfl, Or.inl rfl⟩
    | exact Or.inl ⟨rfl, rfl, rfl, Or.inr (Or.inl rfl)⟩
    | exact Or.inr (Or.inl ⟨_, rfl, rfl, rfl, rfl, rfl, rfl, rfl, Or.inl rfl⟩)
    | exact Or.inr (Or.inl ⟨_, rfl, rfl, rfl, rfl, rfl, rfl, rfl, Or.inr rfl⟩)
    | exact Or.inr (Or.inr (Or.inl ⟨rfl, rfl, rfl, fun h => Pc.noConfusion h, rfl, rfl⟩))
    | exact Or.inr (Or.inr (Or.inr (Or.inl ⟨_, rfl, rfl, rfl, rfl, rfl, rfl, rfl⟩)))
    | exact Or.inr (Or.inr (Or.inr (Or.inr ⟨_, rfl, rfl, rfl, rfl, rfl, rfl⟩)))
    | exact Or.inl ⟨rfl, rfl, rfl, Or.inr (Or.inr ⟨rfl, Or.inl (by assumption)⟩)⟩
    | exact Or.inl ⟨rfl, rfl, rfl,
        Or.inr (Or.inr ⟨rfl, Or.inr ((Bool.not_eq_true _).mp (by assumption))⟩)⟩


theorem lifecycle_append (l : Option Nat) (t u : List Call) :
    lifecycle l (t ++ u) = (lifecycle l t).bind (fun l2 => lifecycle l2 u) := by
  induction t generalizing l with
  | nil => rfl
  | cons c cs ih =>
    simp only [List.cons_append, lifecycle]
    cases session_effect l c with
    | none => rfl
    | some l2 => exact ih l2

theorem session_effect_neutral (l : Option Nat) (c : Call) (h1 : c.session = none)
    (h2 : c.created = none) : session_effect l c = some l := by
  cases c <;> first | rfl | exact Option.noConfusion h1 | exact Option.noConfusion h2

theorem lifecycle_neutral (l : Option Nat) (u : List Call)
    (h : ∀ c ∈ u, c.session = none ∧ c.created = none) : lifecycle l u = some l := by
  induction u with
  | nil => rfl
  | cons c cs ih =>
    have hc := h c (List.mem_cons_self c cs)
    simp only [lifecycle, session_effect_neutral l c hc.1 hc.2]
    exact ih (fun x hx => h x (List.mem_cons_of_mem c hx))

theorem session_effect_op (d : Nat) (c : Call) (h1 : c.session = some d)
    (h2 : c.created = none) (h3 : c.is_destroy = false) :
    session_effect (some d) c = some (some d) := by
  cases c <;>
    first
      | exact Option.noConfusion h1
      | exact Option.noConfusion h2
      | exact Bool.noConfusion h3
      | (injection h1 with h1
         subst h1
         simp [session_effect, Call.created, Call.session])

theorem session_effect_destroy (d : Nat) :
    session_effect (some d) (.esp_modem_destroy d) = some none := by
  simp [session_effect, Call.created]

theorem session_effect_created (c : Call) (r : Nat) (h : c.created = some r) :
    session_effect none c = some (if r = 0 then none else some r) := by
  simp [session_effect, h]

theorem count_destroy_neutral (u : List Call) (d : Nat) (h : ∀ c ∈ u, c.session = none) :
    u.count (.esp_modem_destroy d) = 0 := by
  rw [List.count_eq_zero]
  intro hm
  have := h _ hm
  cases this

theorem count_destroy_other (c : Call) (d : Nat) (h : c.is_destroy = false) :
    [c].count (.esp_modem_destroy d) = 0 := by
  rw [List.count_eq_zero]
  intro hm
  rw [List.mem_singleton] at hm
  rw [← hm] at h
  cases h

theorem all_neutral {u : List Call}
    (h : u.all (fun c => c.session.isNone && c.created.isNone) = true) :
    ∀ c ∈ u, c.session = none ∧ c.created = none := by
  intro c hc
  have := List.all_eq_true.mp h c hc
  simpa [Option.isNone_iff_eq_none] using this

theorem lifeInv_step (cfg : Config) (s : State) (t : List Call) (i : Input)
    (h : LifeInv cfg s t) : LifeInv cfg (step cfg s i).1 (t ++ (step cfg s i).2) := by
  obtain ⟨hinv, live, hl, hlive, hlatest, hcount⟩ := h
  refine ⟨stateInv_step cfg s i hinv, ?_⟩
  cases hi : i.is_main
  · have hf := handler_step_fields cfg s i hi
    have hn : ∀ c ∈ (step cfg s i).2, c.session = none ∧ c.created = none := fun c hc =>
      ⟨(by_handler_not_session c ((handler_step cfg s i hi).2 c hc)).2.1,
        (by_handler_not_session c ((handler_step cfg s i hi).2 c hc)).2.2.2⟩
    refine ⟨live, ?_, ?_, ?_, ?_⟩
    · rw [lifecycle_append, hl]; exact lifecycle_neutral _ _ hn
    · intro hne
      rcases hf.1 with hp | ⟨_, hp⟩
      · rw [hlive (by rw [← hp]; exact hne)]
        simp only [live_of, hp, hf.2.1]
      · exact absurd hp hne
    · rw [hf.2.2.1]; exact hlatest
    · intro d
      rw [List.count_append, count_destroy_neutral _ d (fun c hc => (hn c hc).1), hf.2.2.1,
        hcount d]
      rfl
  · cases i with
    | main ok p =>
      by_cases hab : s.pc = .aborted
      · simp only [step, hab, ↓reduceIte, List.append_nil]
        exact ⟨live, hl, fun hne => absurd rfl hne, hlatest, hcount⟩
      · simp only [step, hab, ↓reduceIte]
        have hlv := hlive hab
        rcases main_step_kind cfg s ok p with
          ⟨k1, k2, k3, k4⟩ | ⟨c, k1, k2, k3, k4, k5, k6, k7, k8⟩ | ⟨k1, k2, k3, k4, k5, k6⟩ |
          ⟨c, k1, k2, k3, k4, k5, k6, k7⟩ | ⟨c, k1, k2, k3, k4, k5, k6⟩
        · have hn := all_neutral k1
          refine ⟨live, ?_, ?_, ?_, ?_⟩
          · rw [lifecycle_append, hl]; exact lifecycle_neutral _ _ hn
          · intro hne
            rcases k4 with k4 | k4 | ⟨k4, k5⟩
            · rw [hlv]; simp only [live_of, k4, k2]
            · exact absurd k4 hne
            · exfalso
              have hw := hinv.2.1
              have hu := hinv.1
              simp only [WaitInv, k4, waitOk] at hw
              rcases k5 with k5 | k5
              · rw [hu k5] at hw; cases hw
              · rw [k5] at hw; cases hw
          · rw [k3]; exact hlatest
          · intro d
            rw [List.count_append, count_destroy_neutral _ d (fun c hc => (hn c hc).1), k3,
              hcount d]
            rfl
        · have hld : live = some s.dce := by rw [hlv]; simp [live_of, k5]
          refine ⟨live, ?_, ?_, ?_, ?_⟩
          · rw [lifecycle_append, hl, k1, hld]
            simp [lifecycle, session_effect_op s.dce c k2 k3 k4]
          · intro hne
            rcases k8 with k8 | k8
            · rw [hld]; simp [live_of, k8, k6]
            · exact absurd k8 hne
          · rw [k7]; exact hlatest
          · intro d
            rw [List.count_append, k1, count_destroy_other c d k4, k7, hcount d]
            rfl
        · have hld : live = some s.dce := by rw [hlv]; simp [live_of, k2]
          have hdce := hlatest s.dce hld
          refine ⟨none, ?_, ?_, ?_, ?_⟩
          · rw [lifecycle_append, hl, k1, hld]
            simp [lifecycle, session_effect_destroy]
          · intro _; simp [live_of, k3]
          · intro d hd; cases hd
          · intro d
            rw [List.count_append, k1, k6, hcount d, hld]
            by_cases hdd : d = s.dce
            · subst hdd
              have h1 := hdce.2
              have h2 := hdce.1
              have h3 : s.dce ≤ s.sessions_made := by omega
              simp [h1, h3]
            · have : Call.esp_modem_destroy s.dce ≠ Call.esp_modem_destroy d := by
                intro hx; injection hx with hx; exact hdd hx.symm
              simp [List.count_singleton, this, hdd, Ne.symm hdd]
        · have hln : live = none := by rw [hlv]; simp [live_of, k4]
          refine ⟨some (s.sessions_made + 1), ?_, ?_, ?_, ?_⟩
          · rw [lifecycle_append, hl, k1, hln]
            simp [lifecycle, session_effect_created c _ k2]
          · intro _; simp [live_of, k5, k6]
          · intro d hd
            injection hd with hd
            rw [k7]; omega
          · intro d
            have hnd : c.is_destroy = false := by
              cases c <;> first | rfl | exact Option.noConfusion k3
            rw [List.count_append, k1, count_destroy_other c d hnd, k7, hcount d, hln]
            by_cases h1 : d ≤ s.sessions_made
            · have : d ≠ s.sessions_made + 1 := by omega
              have h2 : d ≤ s.sessions_made + 1 := by omega
              simp [h1, h2, Ne.symm this]
            · by_cases h2 : d = s.sessions_made + 1
              · subst h2; simp
              · have : ¬ d ≤ s.sessions_made + 1 := by omega
                simp [h1, this]
        · have hln : live = none := by rw [hlv]; simp [live_of, k4]
          refine ⟨none, ?_, ?_, ?_, ?_⟩
          · rw [lifecycle_append, hl, k1, hln]
            simp [lifecycle, session_effect_created c _ k2]
          · intro hne; exact absurd k5 hne
          · intro d hd; cases hd
          · intro d
            have hnd : c.is_destroy = false := by
              cases c <;> first | rfl | exact Option.noConfusion k3
            rw [List.count_append, k1, count_destroy_other c d hnd, k6, hcount d, hln]
            rfl
    | ip_event id => simp [Input.is_main] at hi
    | ppp_event id => simp [Input.is_main] at hi
    | mqtt_event c id => simp [Input.is_main] at hi
    | terminal_error e => simp [Input.is_main] at hi

theorem lifeInv_reachable (cfg : Config) (inputs : List Input) :
    LifeInv cfg (run cfg .init inputs) (trace cfg .init inputs) := by
  have h0 : LifeInv cfg .init [] := by
    refine ⟨stateInv_init cfg, none, rfl, fun _ => rfl, ?_, ?_⟩
    · intro d hd; cases hd
    · intro d
      have : ¬ (1 ≤ d ∧ d ≤ 0 ∧ (none : Option Nat) ≠ some d) := by omega
      simp only [State.init, List.count_nil, this, if_false]
  have h := trace_invariant cfg (LifeInv cfg) (lifeInv_step cfg) inputs .init [] h0
  rw [List.nil_append] at h
  exact h


theorem main_step_done (cfg : Config) (s : State) (ok p : Bool)
    (h : (main_step cfg s ok p).1.pc = .L351 ∨ (main_step cfg s ok p).1.pc = .done) :
    (main_step cfg s ok p).1.dce = s.dce ∧
    (main_step cfg s ok p).1.sessions_made = s.sessions_made ∧
    (s.pc.in_session = true ∨ s.pc = .L351 ∨ s.pc = .done) := by
  rcases s with ⟨pc, eg, dce, mc, sm, cm⟩
  revert h
  cases pc <;>
  dsimp only [main_step, checked, wait_enter, wait_return, check_usb_disconnection, check_body,
    after_new_uart] <;>
  (try split) <;> (try split) <;> (try split) <;>
  intro h <;>
  first
    | exact ⟨rfl, rfl, Or.inl rfl⟩
    | exact ⟨rfl, rfl, Or.inr (Or.inl rfl)⟩
    | exact ⟨rfl, rfl, Or.inr (Or.inr rfl)⟩
    | (rcases h with h | h <;> exact Pc.noConfusion h)

theorem doneInv_step (cfg : Config) (s : State) (i : Input) (h : HandleInv s ∧ DoneInv s) :
    HandleInv (step cfg s i).1 ∧ DoneInv (step cfg s i).1 := by
  cases hi : i.is_main
  · have hf := handler_step_fields cfg s i hi
    refine ⟨⟨by rw [hf.2.1, hf.2.2.1]; exact h.1.1, ?_⟩, ?_⟩
    · rcases hf.1 with hp | ⟨_, hp⟩
      · rw [hp, hf.2.1, hf.2.2.1]; exact h.1.2
      · rw [hp]; intro hx; exact Bool.noConfusion hx
    · rcases hf.1 with hp | ⟨_, hp⟩
      · intro hx; rw [hp] at hx; rw [hf.2.1, hf.2.2.1]; exact h.2 hx
      · intro hx; rw [hp] at hx; rcases hx with hx | hx <;> cases hx
  · cases i with
    | main ok p =>
      by_cases hab : s.pc = .aborted
      · simp only [step, hab, ↓reduceIte]; exact h
      · simp only [step, hab, ↓reduceIte]
        refine ⟨handleInv_main cfg s ok p h.1, fun hx => ?_⟩
        obtain ⟨h1, h2, h3⟩ := main_step_done cfg s ok p hx
        rw [h1, h2]
        rcases h3 with h3 | h3 | h3
        · exact h.1.2 h3
        · exact h.2 (Or.inl h3)
        · exact h.2 (Or.inr h3)
    | ip_event id => simp [Input.is_main] at hi
    | ppp_event id => simp [Input.is_main] at hi
    | mqtt_event c id => simp [Input.is_main] at hi
    | terminal_error e => simp [Input.is_main] at hi

theorem doneInv_reachable (cfg : Config) (inputs : List Input) :
    DoneInv (run cfg .init inputs) :=
  (run_invariant cfg (fun s => HandleInv s ∧ DoneInv s) (doneInv_step cfg) inputs .init
    ⟨(stateInv_init cfg).2.2.1, fun h => by rcases h with h | h <;> cases h⟩).2

/-- C5: along every execution the calls follow the session discipline (a session
is created only when none is live, and every session operation, the destroy
included, names the live session, so at most one session is live at any time);
the live session at any point is the one the program holds; no session is
destroyed twice; when the UART build has run to its end, and whenever the
hot-plug loop is back at its top, every session made so far was destroyed exactly
once; at the end of the UART run that is the one session `dce`; and in the
hot-plug build a session whose disconnect was observed (the program is in the
body of the check) is destroyed by the next orchestrator step, exactly once. -/
theorem one_live_session (cfg : Config) (inputs : List Input) :
    (∃ live, lifecycle none (trace cfg .init inputs) = some live ∧
      ((run cfg .init inputs).pc ≠ .aborted → live = live_of (run cfg .init inputs))) ∧
    (∀ d, (trace cfg .init inputs).count (.esp_modem_destroy d) ≤ 1) ∧
    (((run cfg .init inputs).pc = .done ∨ (run cfg .init inputs).pc = .L256) →
      ∀ d, 1 ≤ d → d ≤ (run cfg .init inputs).sessions_made →
        (trace cfg .init inputs).count (.esp_modem_destroy d) = 1) ∧
    ((run cfg .init inputs).pc = .done →
      1 ≤ (run cfg .init inputs).dce ∧
      (trace cfg .init inputs).count (.esp_modem_destroy (run cfg .init inputs).dce) = 1) ∧
    (((run cfg .init inputs).pc = .L309_destroy ∨ (run cfg .init inputs).pc = .L326_destroy ∨
        (run cfg .init inputs).pc = .L346_destroy) →
      (trace cfg .init inputs).count (.esp_modem_destroy (run cfg .init inputs).dce) = 0 ∧
      ∀ ok p, (trace cfg .init (inputs ++ [.main ok p])).count
        (.esp_modem_destroy (run cfg .init inputs).dce) = 1) := by
  obtain ⟨hinv, live, hl, hlive, hlatest, hcount⟩ := lifeInv_reachable cfg inputs
  have hdone := doneInv_reachable cfg inputs
  have happ : ∀ ok p, trace cfg .init (inputs ++ [.main ok p]) =
      trace cfg .init inputs ++ (step cfg (run cfg .init inputs) (.main ok p)).2 := by
    intro ok p; rw [trace_append]; simp [trace]
  generalize trace cfg .init inputs = t at hl hcount happ
  generalize run cfg .init inputs = s at hinv hlive hlatest hcount hdone happ
  refine ⟨⟨live, hl, hlive⟩, ?_, ?_, ?_, ?_⟩
  · intro d
    rw [hcount d]
    split <;> omega
  · intro hpc d h1 h2
    have hln : live = none := by
      rw [hlive (by rcases hpc with h | h <;> rw [h] <;> decide)]
      rcases hpc with h | h <;> simp [live_of, h, Pc.in_session]
    rw [hcount d, hln]
    simp [h1, h2]
  · intro hpc
    have hln : live = none := by
      rw [hlive (by rw [hpc]; decide)]
      simp [live_of, hpc, Pc.in_session]
    obtain ⟨h1, h2⟩ := hdone (Or.inr hpc)
    refine ⟨h2, ?_⟩
    rw [hcount, hln]
    have h3 : s.dce ≤ s.sessions_made := by omega
    simp [h2, h3]
  · intro hpc
    have hab : s.pc ≠ .aborted := by rcases hpc with h | h | h <;> rw [h] <;> decide
    have hin : s.pc.in_session = true := by rcases hpc with h | h | h <;> rw [h] <;> rfl
    have hld : live = some s.dce := by rw [hlive hab]; simp [live_of, hin]
    obtain ⟨h1, h2⟩ := hinv.2.2.1.2 hin
    refine ⟨?_, fun ok p => ?_⟩
    · rw [hcount, hld]; simp
    · rw [happ, List.count_append, hcount, hld]
      have hstep : (step cfg s (.main ok p)).2 = [.esp_modem_destroy s.dce] := by
        rcases s with ⟨pc, eg, dce, mc, sm, cm⟩
        simp only at hpc
        rcases hpc with h | h | h <;> subst h <;> rfl
      rw [hstep]
      simp

set_option maxRecDepth 100000 in
/-- Witness for C5: the complete UART run ends with its one
session destroyed exactly once. -/
theorem one_live_session_witness :
    (run cfgUART .init uartHappy).pc = .done ∧
    (trace cfgUART .init uartHappy).count
      (.esp_modem_destroy (run cfgUART .init uartHappy).dce) = 1 :=
  ⟨by decide, ((one_live_session cfgUART uartHappy).2.2.2.1 (by decide)).2⟩


/-! ## Clearing the conditions (C4) -/

theorem by_handler_not_clear (c : Call) (h : c.by_handler = true) :
    c.is_destroy = false ∧ c.is_clear = false := by
  cases c <;> first | exact ⟨rfl, rfl⟩ | exact Bool.noConfusion h

theorem cleared_once_append (m : Option EventBits) (t u : List Call) :
    cleared_once_per_session m (t ++ u) =
      (cleared_once_per_session m t && cleared_once_per_session (cleared_after m t) u) := by
  induction t generalizing m with
  | nil => simp [cleared_once_per_session, cleared_after]
  | cons c cs ih =>
    cases c <;> simp [cleared_once_per_session, cleared_after, ih, Bool.and_assoc]

theorem cleared_after_append (m : Option EventBits) (t u : List Call) :
    cleared_after m (t ++ u) = cleared_after (cleared_after m t) u := by
  induction t generalizing m with
  | nil => rfl
  | cons c cs ih => cases c <;> simp [cleared_after, ih]

theorem cleared_handlers (m : Option EventBits) (u : List Call)
    (h : ∀ c ∈ u, c.by_handler = true) :
    cleared_once_per_session m u = true ∧ cleared_after m u = m := by
  induction u with
  | nil => exact ⟨rfl, rfl⟩
  | cons c cs ih =>
    have hc := h c (List.mem_cons_self c cs)
    have ih2 := ih (fun x hx => h x (List.mem_cons_of_mem c hx))
    cases c <;> first | exact Bool.noConfusion hc | exact ih2

theorem main_step_clear_after (cfg : Config) (s : State) (ok p : Bool)
    (h : s.pc.after_clear = true) :
    cleared_once_per_session (some ALL_BITS) (main_step cfg s ok p).2 = true ∧
    ((main_step cfg s ok p).1.pc.after_clear = true →
      cleared_after (some ALL_BITS) (main_step cfg s ok p).2 = some ALL_BITS) ∧
    ((main_step cfg s ok p).1.pc.before_clear = true →
      cleared_after (some ALL_BITS) (main_step cfg s ok p).2 = none) := by
  rcases s with ⟨pc, eg, dce, mc, sm, cm⟩
  revert h
  cases pc <;>
  dsimp only [main_step, checked, wait_enter, wait_return, check_usb_disconnection, check_body,
    after_new_uart, new_dev_call, wakeup_modem] <;>
  (try split) <;> (try split) <;> (try split) <;>
  intro h <;>
  first
    | exact Bool.noConfusion h
    | exact ⟨rfl, fun _ => rfl, fun h => Bool.noConfusion h⟩

theorem main_step_clear_before (cfg : Config) (s : State) (ok p : Bool)
    (h : s.pc.before_clear = true) :
    cleared_once_per_session none (main_step cfg s ok p).2 = true ∧
    ((main_step cfg s ok p).1.pc.after_clear = true →
      cleared_after none (main_step cfg s ok p).2 = some ALL_BITS) ∧
    ((main_step cfg s ok p).1.pc.before_clear = true →
      cleared_after none (main_step cfg s ok p).2 = none) := by
  rcases s with ⟨pc, eg, dce, mc, sm, cm⟩
  revert h
  cases pc <;>
  dsimp only [main_step, checked, wait_enter, wait_return, check_usb_disconnection, check_body,
    after_new_uart, new_dev_call, wakeup_modem] <;>
  (try split) <;> (try split) <;> (try split) <;>
  intro h <;>
  first
    | exact Bool.noConfusion h
    | exact ⟨rfl, fun _ => rfl, fun h => Bool.noConfusion h⟩
    | exact ⟨rfl, fun h => Bool.noConfusion h, fun _ => rfl⟩

theorem main_step_clear_other (cfg : Config) (s : State) (ok p : Bool) (m : Option EventBits)
    (h1 : s.pc.after_clear = false) (h2 : s.pc.before_clear = false) :
    cleared_once_per_session m (main_step cfg s ok p).2 = true ∧
    ((main_step cfg s ok p).1.pc.after_clear = true →
      cleared_after m (main_step cfg s ok p).2 = some ALL_BITS) ∧
    ((main_step cfg s ok p).1.pc.before_clear = true →
      cleared_after m (main_step cfg s ok p).2 = none) := by
  rcases s with ⟨pc, eg, dce, mc, sm, cm⟩
  revert h1 h2
  cases pc <;>
  dsimp only [main_step, checked, wait_enter, wait_return, check_usb_disconnection, check_body,
    after_new_uart, new_dev_call, wakeup_modem] <;>
  (try split) <;> (try split) <;> (try split) <;>
  intro h1 h2 <;>
  first
    | exact Bool.noConfusion h1
    | exact Bool.noConfusion h2
    | exact ⟨rfl, fun h => Bool.noConfusion h, fun _ => rfl⟩
    | exact ⟨rfl, fun h => Bool.noConfusion h, fun h => Bool.noConfusion h⟩

/-- One statement of `app_main` and the clear of its session: the clear is made
at line 265 only, once, and the waits come after it. -/
theorem main_step_clear (cfg : Config) (s : State) (ok p : Bool) (m : Option EventBits)
    (h1 : s.pc.after_clear = true → m = some ALL_BITS)
    (h2 : s.pc.before_clear = true → m = none) :
    cleared_once_per_session m (main_step cfg s ok p).2 = true ∧
    ((main_step cfg s ok p).1.pc.after_clear = true →
      cleared_after m (main_step cfg s ok p).2 = some ALL_BITS) ∧
    ((main_step cfg s ok p).1.pc.before_clear = true →
      cleared_after m (main_step cfg s ok p).2 = none) := by
  cases ha : s.pc.after_clear
  · cases hb : s.pc.before_clear
    · exact main_step_clear_other cfg s ok p m ha hb
    · rw [h2 hb]; exact main_step_clear_before cfg s ok p hb
  · rw [h1 ha]; exact main_step_clear_after cfg s ok p ha

theorem clearInv_step (cfg : Config) (s : State) (t : List Call) (i : Input)
    (h : ClearInv s t) : ClearInv (step cfg s i).1 (t ++ (step cfg s i).2) := by
  obtain ⟨h0, h1, h2⟩ := h
  cases hi : i.is_main
  · have hf := handler_step_fields cfg s i hi
    have hc := cleared_handlers (cleared_after none t) _ (handler_step cfg s i hi).2
    refine ⟨by rw [cleared_once_append, h0, hc.1]; rfl, ?_, ?_⟩
    · intro hx
      rw [cleared_after_append, hc.2]
      rcases hf.1 with hp | ⟨_, hp⟩
      · rw [hp] at hx; exact h1 hx
      · rw [hp] at hx; exact Bool.noConfusion hx
    · intro hx
      rw [cleared_after_append, hc.2]
      rcases hf.1 with hp | ⟨_, hp⟩
      · rw [hp] at hx; exact h2 hx
      · rw [hp] at hx; exact Bool.noConfusion hx
  · cases i with
    | main ok p =>
      by_cases hab : s.pc = .aborted
      · simp only [step, hab, ↓reduceIte, List.append_nil]
        exact ⟨h0, h1, h2⟩
      · simp only [step, hab, ↓reduceIte]
        obtain ⟨k0, k1, k2⟩ := main_step_clear cfg s ok p (cleared_after none t) h1 h2
        exact ⟨by rw [cleared_once_append, h0, k0]; rfl,
          fun hx => by rw [cleared_after_append]; exact k1 hx,
          fun hx => by rw [cleared_after_append]; exact k2 hx⟩
    | ip_event id => simp [Input.is_main] at hi
    | ppp_event id => simp [Input.is_main] at hi
    | mqtt_event c id => simp [Input.is_main] at hi
    | terminal_error e => simp [Input.is_main] at hi

/-- The clear of line 265: one call for all three conditions, after which none
of them is set. -/
theorem clear_step (cfg : Config) (s : State) (ok p : Bool) (h : s.pc = .L265) :
    (step cfg s (.main ok p)).2 =
      [.xEventGroupClearBits (CONNECT_BIT ||| GOT_DATA_BIT ||| USB_DISCONNECTED_BIT)] ∧
    (step cfg s (.main ok p)).1.has CONNECT_BIT = false ∧
    (step cfg s (.main ok p)).1.has GOT_DATA_BIT = false ∧
    (step cfg s (.main ok p)).1.has USB_DISCONNECTED_BIT = false := by
  rcases s with ⟨pc, _ | bits, dce, mc, sm, cm⟩ <;> simp only at h <;> subst h
  · exact ⟨rfl, rfl, rfl, rfl⟩
  · refine ⟨rfl, ?_, ?_, ?_⟩ <;>
      simp [step, main_step, State.has, CONNECT_BIT, GOT_DATA_BIT, USB_DISCONNECTED_BIT, ALL_BITS,
        allBits_BIT, isSet_clearBits, isSet_or, isSet_BIT]

/-- Past the clear a statement of `app_main` leaves the event group as it is and
makes no clear, until it creates the next session. -/
theorem main_step_kept (cfg : Config) (s : State) (ok p : Bool)
    (h : s.pc.no_clear_ahead = true) :
    (main_step cfg s ok p).2.any (fun c => c.created.isSome) = true ∨
    ((main_step cfg s ok p).1.pc.no_clear_ahead = true ∧
      (main_step cfg s ok p).1.event_group = s.event_group ∧
      (main_step cfg s ok p).2.all (fun c => !c.is_clear) = true) := by
  rcases s with ⟨pc, eg, dce, mc, sm, cm⟩
  revert h
  cases pc <;>
  dsimp only [main_step, checked, wait_enter, wait_return, check_usb_disconnection, check_body,
    after_new_uart, new_dev_call, wakeup_modem] <;>
  (try split) <;> (try split) <;> (try split) <;>
  intro h <;>
  first
    | exact Bool.noConfusion h
    | exact Or.inr ⟨rfl, rfl, rfl⟩
    | exact Or.inl rfl

theorem kept_step (cfg : Config) (s : State) (i : Input) (k : Nat) (bits : EventBits)
    (hpc : s.pc.no_clear_ahead = true) (hg : s.event_group = some bits)
    (hk : isSet bits k = true) (hn : ∀ c ∈ (step cfg s i).2, c.created = none) :
    (step cfg s i).1.pc.no_clear_ahead = true ∧
    (∃ b2, (step cfg s i).1.event_group = some b2 ∧ isSet b2 k = true) ∧
    ∀ c ∈ (step cfg s i).2, c.is_clear = false := by
  cases hi : i.is_main
  · have hf := handler_step_fields cfg s i hi
    obtain ⟨b2, hb2, hmono⟩ := hf.2.2.2.2.2 bits hg
    refine ⟨?_, ⟨b2, hb2, hmono k hk⟩,
      fun c hc => (by_handler_not_clear c ((handler_step cfg s i hi).2 c hc)).2⟩
    rcases hf.1 with hp | ⟨_, hp⟩
    · rw [hp]; exact hpc
    · rw [hp]; rfl
  · cases i with
    | main ok p =>
      by_cases hab : s.pc = .aborted
      · simp only [step, hab, ↓reduceIte]
        exact ⟨by rw [← hab]; exact hpc, ⟨bits, hg, hk⟩, by simp⟩
      · simp only [step, hab, ↓reduceIte] at hn ⊢
        rcases main_step_kept cfg s ok p hpc with h1 | ⟨h1, h2, h3⟩
        · obtain ⟨c, hc, hcr⟩ := List.any_eq_true.mp h1
          rw [hn c hc] at hcr
          exact Bool.noConfusion hcr
        · refine ⟨h1, ⟨bits, by rw [h2]; exact hg, hk⟩, fun c hc => ?_⟩
          have := List.all_eq_true.mp h3 c hc
          simpa using this
    | ip_event id => simp [Input.is_main] at hi
    | ppp_event id => simp [Input.is_main] at hi
    | mqtt_event c id => simp [Input.is_main] at hi
    | terminal_error e => simp [Input.is_main] at hi

/-- Past the clear, and as long as no new session is created, no clear is made
and a condition that is set stays set. -/
theorem kept_trace (cfg : Config) (k : Nat) (inputs : List Input) :
    ∀ (s : State) (bits : EventBits), s.pc.no_clear_ahead = true → s.event_group = some bits →
      isSet bits k = true → (∀ c ∈ trace cfg s inputs, c.created = none) →
      (∀ c ∈ trace cfg s inputs, c.is_clear = false) ∧
      ∃ b2, (run cfg s inputs).event_group = some b2 ∧ isSet b2 k = true := by
  induction inputs with
  | nil => intro s bits _ hg hk _; exact ⟨by simp [trace], bits, hg, hk⟩
  | cons i is ih =>
    intro s bits hpc hg hk hn
    have hn1 : ∀ c ∈ (step cfg s i).2, c.created = none := fun c hc =>
      hn c (by simp only [trace, List.mem_append]; exact Or.inl hc)
    have hn2 : ∀ c ∈ trace cfg (step cfg s i).1 is, c.created = none := fun c hc =>
      hn c (by simp only [trace, List.mem_append]; exact Or.inr hc)
    obtain ⟨h1, ⟨b2, hb2, hk2⟩, h3⟩ := kept_step cfg s i k bits hpc hg hk hn1
    obtain ⟨h4, h5⟩ := ih (step cfg s i).1 b2 h1 hb2 hk2 hn2
    refine ⟨fun c hc => ?_, h5⟩
    simp only [trace, List.mem_append] at hc
    rcases hc with hc | hc
    · exact h3 c hc
    · exact h4 c hc

/-- C4, as the code has it: the conditions are cleared once per session, not
before each wait.  Along every execution, every session has at most one clear,
made after the session is created; every wait comes after the clear of its
session and awaits only conditions that clear covered; and once the program is
past line 265 that one clear has been made.  The clear is the statement of line
265: one call covering all three conditions, after which none of them is set.
From then on, as long as no new session is created, no clear is made and a
condition that is set stays set: it is still set when a later wait of that
session begins. -/
theorem cleared_once (cfg : Config) (inputs : List Input) :
    cleared_once_per_session none (trace cfg .init inputs) = true ∧
    ((run cfg .init inputs).pc.after_clear = true →
      cleared_after none (trace cfg .init inputs) =
        some (CONNECT_BIT ||| GOT_DATA_BIT ||| USB_DISCONNECTED_BIT)) ∧
    ((run cfg .init inputs).pc = .L265 → ∀ ok p,
      (step cfg (run cfg .init inputs) (.main ok p)).2 =
        [.xEventGroupClearBits (CONNECT_BIT ||| GOT_DATA_BIT ||| USB_DISCONNECTED_BIT)] ∧
      (step cfg (run cfg .init inputs) (.main ok p)).1.has CONNECT_BIT = false ∧
      (step cfg (run cfg .init inputs) (.main ok p)).1.has GOT_DATA_BIT = false ∧
      (step cfg (run cfg .init inputs) (.main ok p)).1.has USB_DISCONNECTED_BIT = false) ∧
    (∀ after k, (run cfg .init inputs).pc.after_clear = true →
      (run cfg .init inputs).has (BIT k) = true →
      (∀ c ∈ trace cfg (run cfg .init inputs) after, c.created = none) →
      (∀ c ∈ trace cfg (run cfg .init inputs) after, c.is_clear = false) ∧
      (run cfg (run cfg .init inputs) after).has (BIT k) = true) := by
  have h := trace_invariant cfg ClearInv (clearInv_step cfg) inputs .init []
    ⟨rfl, fun hx => Bool.noConfusion hx, fun hx => Bool.noConfusion hx⟩
  rw [List.nil_append] at h
  refine ⟨h.1, h.2.1, fun hpc ok p => clear_step cfg _ ok p hpc, ?_⟩
  intro after k hpc hk hn
  cases hg : (run cfg .init inputs).event_group with
  | none => simp [State.has, hg] at hk
  | some bits =>
    have hk2 : isSet bits k = true := by simpa [State.has, hg, allBits_BIT] using hk
    have hpc2 : (run cfg .init inputs).pc.no_clear_ahead = true := by
      revert hpc
      cases (run cfg .init inputs).pc <;> intro hpc <;>
        first | exact Bool.noConfusion hpc | rfl
    obtain ⟨h1, b2, hb2, hk3⟩ := kept_trace cfg k after _ bits hpc2 hg hk2 hn
    exact ⟨h1, by simp [State.has, hb2, allBits_BIT, hk3]⟩

set_option maxRecDepth 100000 in
/-- Witness for C4 as amended: CONNECTED is set while the first session is
inside its wait for the IP address; six orchestrator steps later, inside the
wait for broker data, it is still set. -/
theorem cleared_once_witness :
    (run cfgUSB .init (usbToIpWait ++ [.ip_event .IP_EVENT_PPP_GOT_IP])).pc = .L308_blocked ∧
    (run cfgUSB .init
      (usbToIpWait ++ [.ip_event .IP_EVENT_PPP_GOT_IP] ++ List.replicate 6 okStep)).pc =
        .L325_blocked ∧
    (run cfgUSB (run cfgUSB .init (usbToIpWait ++ [.ip_event .IP_EVENT_PPP_GOT_IP]))
      (List.replicate 6 okStep)).has (BIT 0) = true := by
  have h1 : (run cfgUSB .init
      (usbToIpWait ++ [.ip_event .IP_EVENT_PPP_GOT_IP])).pc.after_clear = true := by decide
  have h2 : (run cfgUSB .init
      (usbToIpWait ++ [.ip_event .IP_EVENT_PPP_GOT_IP])).has (BIT 0) = true := by decide
  have h3 : ∀ c ∈ trace cfgUSB (run cfgUSB .init
      (usbToIpWait ++ [.ip_event .IP_EVENT_PPP_GOT_IP])) (List.replicate 6 okStep),
      c.created = none := by decide
  have h := (cleared_once cfgUSB (usbToIpWait ++ [.ip_event .IP_EVENT_PPP_GOT_IP])).2.2.2
    (List.replicate 6 okStep) 0 h1 h2 h3
  exact ⟨by decide, by decide, h.2⟩

set_option maxRecDepth 100000 in
/-- C4 as stated fails.  In the complete UART run the event group is cleared
once, before the first wait, and the wait for broker data follows the wait for
the IP address with no clear in between.  And in the hot-plug run `usbStaleData`
the second session begins its wait for broker data (line 325) with GOT_DATA
already set: the condition was set while that session was still inside its wait
for the IP address, by the probe client the first session left running. -/
theorem no_clear_between_waits :
    event_group_calls (trace cfgUART .init uartHappy) =
      [.xEventGroupClearBits 13, .xEventGroupWaitBits 9, .xEventGroupWaitBits 12] ∧
    cleared_before_each_wait 0 (trace cfgUART .init uartHappy) = false ∧
    (run cfgUSB .init (usbToDataCheck ++ List.replicate 10 okStep)).pc = .L308_blocked ∧
    (run cfgUSB .init (usbToDataCheck ++ List.replicate 10 okStep)).has GOT_DATA_BIT = false ∧
    (run cfgUSB .init usbStaleData).pc = .L325 ∧
    (run cfgUSB .init usbStaleData).has GOT_DATA_BIT = true := by
  decide


/-! ## The probe client on the disconnect path (C9) -/

set_option maxRecDepth 100000 in
/-- C9 fails on the code.  In the hot-plug run `usbToDataCheck` the device goes
while the orchestrator waits for broker data; the check of line 326 then destroys
the session and the loop restarts without `esp_mqtt_client_destroy`: probe
client 1 stays alive, and when the second session starts its own probe two
clients exist.  On the success path (the complete UART run) the client is
released. -/
theorem probe_client_leaks :
    (run cfgUSB .init usbToDataCheck).pc = .L326 ∧
    (run cfgUSB .init usbToDataCheck).has USB_DISCONNECTED_BIT = true ∧
    live_clients [] (trace cfgUSB .init usbToDataCheck) = [1] ∧
    trace cfgUSB (run cfgUSB .init usbToDataCheck) [okStep, okStep, okStep] =
      [.xEventGroupGetBits, .esp_modem_destroy 1, .esp_modem_new_dev_usb 2] ∧
    live_clients [] (trace cfgUSB .init (usbToDataCheck ++ [okStep, okStep, okStep])) = [1] ∧
    live_clients [] (trace cfgUSB .init usbStaleData) = [1, 2] ∧
    live_clients [] (trace cfgUART .init uartHappy) = [] := by
  decide

/-! ## The disconnect condition and the clear (C10) -/

end PpposClient
